import Mathlib

/-!
# The stub registry of GLdispatch (`vnd-glapi/mapi/stub.c`)

A shallow embedding of `stub.c` and of the pure C entry backend
(`entry_pure_c.h`), followed by theorems about the static lookup, the dynamic
stub table, slot fixing and the patch callbacks.

Conventions of the embedding.

* A C string is the list of its characters before the terminating NUL.
* A `mapi_func` (code address) is a natural number, `0` being `NULL`.
* A `struct mapi_stub *` is an index: into `public_stubs` for a static stub,
  into `dynamic_stubs` for a dynamic one (`StubRef`).
* `int` values are mathematical integers.  `num_dynamic_stubs` only takes the
  values `0 .. MAPI_TABLE_NUM_DYNAMIC - 1` and is a natural number;
  `next_dynamic_slot` is incremented at most once for each registered stub
  between two resets, so no `int` operation of the registry overflows as long
  as `MAPI_TABLE_NUM_STATIC + MAPI_TABLE_NUM_DYNAMIC` fits an `int`.
* What the generated header `mapi_tmp.h`, `table.h` and the entry backend fix
  at build time is a parameter (`Build`).
* The calls made to the entry backend are recorded, in order, in the state
  (`entry_calls`); what `strdup` and `entry_generate` return is an argument of
  the operation that calls them.  The state of an entry is the last call that
  wrote it (`trampoline`).
* A failed `assert` and a read past the end of an array stop the operation
  (`Fault`); the reachable states are those reached by calls that return.
* Threads that call `stub_find_dynamic` are a step relation (`ThreadStep`):
  the body runs under `dynamic_mutex`, one thread at a time.
-/

namespace GLdispatch

/-! ## C library -/

/-- The NUL character that ends a C string. -/
def NUL : Char := Char.ofNat 0

/-- The C string that starts at offset `off` of a character pool: the
characters from `off` up to the next NUL. -/
def c_str (pool : List Char) (off : Nat) : List Char :=
  (pool.drop off).takeWhile (fun c => c != NUL)

/-- C library `strcmp`, up to the sign of the result (the only part the C
standard fixes and the only part `stub.c` looks at): characters are compared
by their code, a proper prefix is smaller. -/
def strcmp : List Char → List Char → Int
  | [], [] => 0
  | [], _ :: _ => -1
  | _ :: _, [] => 1
  | a :: as, b :: bs =>
    if a.toNat < b.toNat then -1
    else if b.toNat < a.toNat then 1
    else strcmp as bs

/-- The loop of the C library `bsearch` on the index interval `[l, u)`:
`idx = (l + u) / 2`, go left when `compar` is negative, right when it is
positive, return the element when it is zero.  The first argument bounds the
number of iterations. -/
def bsearch_loop {κ α : Type} (key : κ) (base : List α) (compar : κ → α → Int) :
    Nat → Nat → Nat → Option Nat
  | 0, _, _ => none
  | fuel + 1, l, u =>
    if l < u then
      let idx := (l + u) / 2
      match base[idx]? with
      | none => none
      | some p =>
        let comparison := compar key p
        if comparison < 0 then bsearch_loop key base compar fuel l idx
        else if comparison > 0 then bsearch_loop key base compar fuel (idx + 1) u
        else some idx
    else none

/-- C library `bsearch(key, base, nmemb, size, compar)` with `nmemb` the
length of `base`; the result is the index of the element found.  The interval
shrinks at every iteration, so `nmemb` iterations are never used up. -/
def bsearch {κ α : Type} (key : κ) (base : List α) (compar : κ → α → Int) : Option Nat :=
  bsearch_loop key base compar base.length 0 base.length

/-- The order hypothesis of `bsearch`: along the table the sign of
`compar key` goes from positive to zero to negative. -/
def bsearch_ordered {κ α : Type} (key : κ) (base : List α) (compar : κ → α → Int) : Prop :=
  ∀ (i j : Nat) (pi pj : α), i < j → base[i]? = some pi → base[j]? = some pj →
    (0 ≤ compar key pj → 0 < compar key pi) ∧ (compar key pi ≤ 0 → compar key pj < 0)

/-! ## Data model -/

/-- The record `struct mapi_stub`. -/
structure mapi_stub where
  /-- offset of the name in `public_string_pool` (static stubs) -/
  nameOffset : Nat
  slot : Int
  /-- address of the entry, `0` for `NULL` -/
  addr : Nat
  /-- owned copy of the name (dynamic stubs), `none` for `NULL` -/
  nameBuffer : Option (List Char)
  deriving DecidableEq, Repr

/-- A zero-initialised `struct mapi_stub` (static storage). -/
def mapi_stub.zero : mapi_stub :=
  { nameOffset := 0, slot := 0, addr := 0, nameBuffer := none }

instance : Inhabited mapi_stub := ⟨mapi_stub.zero⟩

/-- What is fixed when the library is built: the constants of `table.h`, the
tables generated in `mapi_tmp.h` and the constant of the entry backend. -/
structure Build where
  MAPI_TABLE_NUM_STATIC : Nat
  MAPI_TABLE_NUM_DYNAMIC : Nat
  public_string_pool : List Char
  public_stubs : List mapi_stub
  /-- the table `public_entries` read by `entry_get_public` -/
  public_entries : List Nat
  /-- the constant `entry_type` of the entry backend -/
  entry_type : Int
  entry_stub_size : Int

/-- The macro `MAPI_LAST_SLOT`. -/
def MAPI_LAST_SLOT (B : Build) : Int :=
  (B.MAPI_TABLE_NUM_STATIC : Int) + (B.MAPI_TABLE_NUM_DYNAMIC : Int) - 1

/-- The name of a static stub: `&public_string_pool[stub->nameOffset]`. -/
def public_name (B : Build) (stub : mapi_stub) : List Char :=
  c_str B.public_string_pool stub.nameOffset

/-! ## Static lookup -/

/-- The function `stub_compare`. -/
def stub_compare (B : Build) (key : List Char) (elem : mapi_stub) : Int :=
  let name := key
  let stub := elem
  let stub_name := c_str B.public_string_pool stub.nameOffset
  strcmp name stub_name

/-- The name without its `gl` prefix, when it has one
(`if (name[0] == 'g' && name[1] == 'l') name += 2`). -/
def skip_gl : List Char → List Char
  | 'g' :: 'l' :: rest => rest
  | name => name

/-- The function `stub_find_public`: the index in `public_stubs` of the stub
found, `none` for `NULL`. -/
def stub_find_public (B : Build) (name : List Char) : Option Nat :=
  let name := skip_gl name
  bsearch name B.public_stubs (stub_compare B)

/-- The first index, counted from `i`, of an element that satisfies `p`: the
loop `for (...; i++) if (p(table[i])) return &table[i]; return NULL`. -/
def first_index {α : Type} (p : α → Bool) : List α → Nat → Option Nat
  | [], _ => none
  | x :: rest, i => if p x then some i else first_index p rest (i + 1)

/-- A full linear scan of the static table for a name. -/
def scan_public (B : Build) (s : List Char) : Option Nat :=
  first_index (fun stub => decide (public_name B stub = s)) B.public_stubs 0

/-- The static names are strictly sorted in the order of `strcmp`. -/
def public_sorted (B : Build) : Prop :=
  B.public_stubs.Pairwise (fun a b => strcmp (public_name B a) (public_name B b) < 0)

instance (B : Build) : Decidable (public_sorted B) := by
  unfold public_sorted; infer_instance

/-- The static table of the scenario of the specification:
`ActiveTexture -> 0`, `BindBuffer -> 1`, `Clear -> 2`. -/
def scenario : Build :=
  { MAPI_TABLE_NUM_STATIC := 3
    MAPI_TABLE_NUM_DYNAMIC := 4
    public_string_pool :=
      "ActiveTexture".toList ++ NUL :: "BindBuffer".toList ++ NUL :: "Clear".toList ++ [NUL]
    public_stubs :=
      [ { nameOffset := 0, slot := 0, addr := 0, nameBuffer := none },
        { nameOffset := 14, slot := 1, addr := 0, nameBuffer := none },
        { nameOffset := 25, slot := 2, addr := 0, nameBuffer := none } ]
    public_entries := [4096, 4112, 4128]
    entry_type := 1
    entry_stub_size := 16 }

/-- A sorted static table with a name that begins with `gl`:
`Clear -> 0`, `glow -> 1`. -/
def gl_named : Build :=
  { MAPI_TABLE_NUM_STATIC := 2
    MAPI_TABLE_NUM_DYNAMIC := 4
    public_string_pool := "Clear".toList ++ NUL :: "glow".toList ++ [NUL]
    public_stubs :=
      [ { nameOffset := 0, slot := 0, addr := 0, nameBuffer := none },
        { nameOffset := 6, slot := 1, addr := 0, nameBuffer := none } ]
    public_entries := [4096, 4112]
    entry_type := 1
    entry_stub_size := 16 }

/-! ## Dynamic stubs -/

/-- A call made to the entry backend (`entry.h`), with what it returned. -/
inductive EntryCall where
  /-- the call `entry_generate(slot)` and the address it returned -/
  | generate (slot : Int) (result : Nat)
  /-- the call `entry_patch(entry, slot)` -/
  | patch (entry : Nat) (slot : Int)
  /-- the call `entry_generate_default_code(entry, slot)` -/
  | generate_default_code (entry : Nat) (slot : Int)
  deriving DecidableEq, Repr

/-- The mutable state of `stub.c`: the array `dynamic_stubs` (all
`MAPI_TABLE_NUM_DYNAMIC` elements, the registered stubs being those at the
indices below `num_dynamic_stubs`), the two counters, and the calls made to
the entry backend so far, oldest first. -/
structure State where
  dynamic_stubs : List mapi_stub
  num_dynamic_stubs : Nat
  next_dynamic_slot : Int
  entry_calls : List EntryCall
  deriving DecidableEq, Repr

/-- The state when the library is loaded: static storage is zero-initialised
and `next_dynamic_slot = MAPI_TABLE_NUM_STATIC`. -/
def State.init (B : Build) : State :=
  { dynamic_stubs := List.replicate B.MAPI_TABLE_NUM_DYNAMIC mapi_stub.zero
    num_dynamic_stubs := 0
    next_dynamic_slot := B.MAPI_TABLE_NUM_STATIC
    entry_calls := [] }

/-- A pointer to a stub: an element of `public_stubs` or of `dynamic_stubs`. -/
inductive StubRef where
  | static (i : Nat)
  | dynamic (i : Nat)
  deriving DecidableEq, Repr

/-- The stub a pointer points to. -/
def deref (B : Build) (S : State) : StubRef → mapi_stub
  | .static i => B.public_stubs.getD i default
  | .dynamic i => S.dynamic_stubs.getD i default

/-- The registered dynamic stubs: the first `num_dynamic_stubs` elements of
`dynamic_stubs`. -/
def State.registered (S : State) : List mapi_stub :=
  S.dynamic_stubs.take S.num_dynamic_stubs

/-- How an operation of the registry can stop the program. -/
inductive Fault where
  /-- an `assert` failed -/
  | assertion
  /-- an array was read past its end -/
  | out_of_bounds
  deriving DecidableEq, Repr

deriving instance DecidableEq for Except

/-- The loop of `stub_cleanup_dynamic` over the first `n` stubs:
`free(stub->nameBuffer); stub->nameBuffer = NULL`. -/
def free_names : Nat → List mapi_stub → List mapi_stub
  | 0, stubs => stubs
  | _ + 1, [] => []
  | n + 1, stub :: rest => { stub with nameBuffer := none } :: free_names n rest

/-- The function `stub_cleanup_dynamic`. -/
def stub_cleanup_dynamic (B : Build) (S : State) : State :=
  { S with
    dynamic_stubs := free_names S.num_dynamic_stubs S.dynamic_stubs
    num_dynamic_stubs := 0
    next_dynamic_slot := B.MAPI_TABLE_NUM_STATIC }

/-- The function `stub_add_dynamic`.  `strdup_ok` tells whether `strdup`
returns a copy (or `NULL`), `entry` is the address `entry_generate` returns
(`0` for `NULL`); neither is called when the table is full.  The result is the
index of the new stub, `none` for `NULL`. -/
def stub_add_dynamic (B : Build) (S : State) (name : List Char)
    (strdup_ok : Bool) (entry : Nat) : Option Nat × State :=
  let idx := S.num_dynamic_stubs
  if (idx : Int) ≥ (B.MAPI_TABLE_NUM_DYNAMIC : Int) - 1 then (none, S)
  else
    let stub := S.dynamic_stubs.getD idx default
    if !strdup_ok then
      (none, { S with dynamic_stubs := S.dynamic_stubs.set idx { stub with nameBuffer := none } })
    else
      let stub := { stub with nameBuffer := some name }
      let stub := { stub with addr := entry }
      let calls := S.entry_calls ++ [EntryCall.generate (MAPI_LAST_SLOT B) entry]
      if entry = 0 then
        (none, { S with
                 dynamic_stubs := S.dynamic_stubs.set idx { stub with nameBuffer := none }
                 entry_calls := calls })
      else
        let stub := { stub with nameOffset := 0 }
        let stub := { stub with slot := -1 }
        (some idx, { S with
                     dynamic_stubs := S.dynamic_stubs.set idx stub
                     num_dynamic_stubs := idx + 1
                     entry_calls := calls })

/-- The test of the loop of `stub_find_dynamic`:
`strcmp(name, dynamic_stubs[i].nameBuffer) == 0`.  A registered stub always
has a name (`Reachable.names`); a `NULL` name matches nothing. -/
def name_matches (name : List Char) (stub : mapi_stub) : Bool :=
  match stub.nameBuffer with
  | some buffer => decide (strcmp name buffer = 0)
  | none => false

/-- The function `stub_find_dynamic`, the mutex held from beginning to end.
The result is the index of the stub in `dynamic_stubs`, `none` for `NULL`. -/
def stub_find_dynamic (B : Build) (S : State) (name : List Char) (generate : Bool)
    (strdup_ok : Bool) (entry : Nat) : Except Fault (Option Nat × State) :=
  if generate && (stub_find_public B name).isSome then .error Fault.assertion
  else
    let count := S.num_dynamic_stubs
    let stub := first_index (name_matches name) (S.dynamic_stubs.take count) 0
    if generate && stub.isNone then .ok (stub_add_dynamic B S name strdup_ok entry)
    else .ok (stub, S)

/-- The function `search_table_by_slot`. -/
def search_table_by_slot (table : List mapi_stub) (num_entries : Nat) (slot : Int) :
    Option Nat :=
  first_index (fun stub => decide (stub.slot = slot)) (table.take num_entries) 0

/-- The function `stub_find_by_slot`. -/
def stub_find_by_slot (B : Build) (S : State) (slot : Int) : Option StubRef :=
  match search_table_by_slot B.public_stubs B.public_stubs.length slot with
  | some i => some (StubRef.static i)
  | none =>
    (search_table_by_slot S.dynamic_stubs S.num_dynamic_stubs slot).map StubRef.dynamic

/-- The function `stub_fix_dynamic` on the dynamic stub at index `stub`, with
`alias_` the pointer to the alias (`none` for `NULL`). -/
def stub_fix_dynamic (B : Build) (S : State) (stub : Nat) (alias_ : Option StubRef) : State :=
  let s := S.dynamic_stubs.getD stub default
  if s.slot ≥ 0 then S
  else
    let (slot, next) :=
      match alias_ with
      | some a => ((deref B S a).slot, S.next_dynamic_slot)
      | none => (S.next_dynamic_slot, S.next_dynamic_slot + 1)
    { S with
      dynamic_stubs := S.dynamic_stubs.set stub { s with slot := slot }
      next_dynamic_slot := next
      entry_calls := S.entry_calls ++ [EntryCall.patch s.addr slot] }

/-! ## Accessors and patch callbacks -/

/-- The function `stub_get_slot`. -/
def stub_get_slot (stub : mapi_stub) : Int := stub.slot

/-- The function `entry_get_public`: `public_entries[slot]`. -/
def entry_get_public (B : Build) (slot : Int) : Nat :=
  B.public_entries.getD slot.toNat 0

/-- The function `stub_get_addr`; `(unsigned int) stub->slot` is the slot
modulo `2 ^ 32`. -/
def stub_get_addr (B : Build) (stub : mapi_stub) : Except Fault Nat :=
  if stub.addr ≠ 0 ∨ stub.slot % 2 ^ 32 < (B.MAPI_TABLE_NUM_STATIC : Int) then
    .ok (if stub.addr ≠ 0 then stub.addr else entry_get_public B stub.slot)
  else .error Fault.assertion

/-- The function `stub_allow_override`: `!!entry_stub_size`. -/
def stub_allow_override (B : Build) : Bool := B.entry_stub_size != 0

/-- The function `stubStartPatch`. -/
def stubStartPatch (B : Build) : Bool :=
  if !stub_allow_override B then false else true

/-- The body of both loops of `stubRestoreFuncs`, for one stub: the slot is
`MAPI_LAST_SLOT` when `stub->slot == -1`, and the default code is generated at
`stub_get_addr(stub)`. -/
def restore_stub (B : Build) (calls : List EntryCall) (stub : mapi_stub) :
    Except Fault (List EntryCall) :=
  let slot := if stub.slot = -1 then MAPI_LAST_SLOT B else stub.slot
  match stub_get_addr B stub with
  | .error f => .error f
  | .ok addr => .ok (calls ++ [EntryCall.generate_default_code addr slot])

/-- One loop of `stubRestoreFuncs`: `n` stubs of `table`, from index `i` on. -/
def restore_loop (B : Build) (table : List mapi_stub) :
    Nat → Nat → List EntryCall → Except Fault (List EntryCall)
  | 0, _, calls => .ok calls
  | n + 1, i, calls =>
    match table[i]? with
    | none => .error Fault.out_of_bounds
    | some stub =>
      match restore_stub B calls stub with
      | .error f => .error f
      | .ok calls => restore_loop B table n (i + 1) calls

/-- The function `stubRestoreFuncs`: the first loop runs over
`MAPI_TABLE_NUM_STATIC` elements of `public_stubs`, the second over the
registered dynamic stubs. -/
def stubRestoreFuncs (B : Build) (S : State) : Except Fault State :=
  if !stub_allow_override B then .error Fault.assertion
  else
    match restore_loop B B.public_stubs B.MAPI_TABLE_NUM_STATIC 0 S.entry_calls with
    | .error f => .error f
    | .ok calls =>
      match restore_loop B S.dynamic_stubs S.num_dynamic_stubs 0 calls with
      | .error f => .error f
      | .ok calls => .ok { S with entry_calls := calls }

/-- The function `stubAbortPatch`. -/
def stubAbortPatch (B : Build) (S : State) : Except Fault State :=
  stubRestoreFuncs B S

/-! ## Reachable states -/

/-- A pointer into one of the two stub tables. -/
def StubRef.in_table (B : Build) : StubRef → Prop
  | .static i => i < B.public_stubs.length
  | .dynamic i => i < B.MAPI_TABLE_NUM_DYNAMIC

/-- A pointer to a stub of the registry: a static stub or a registered
dynamic stub. -/
def StubRef.in_registry (B : Build) (S : State) : StubRef → Prop
  | .static i => i < B.public_stubs.length
  | .dynamic i => i < S.num_dynamic_stubs

/-- One call of an operation that changes the state and returns normally.
`stub_fix_dynamic` gets pointers into the tables, registered or not. -/
inductive Step (B : Build) : State → State → Prop where
  | find_dynamic {S S' : State} (name : List Char) (generate strdup_ok : Bool) (entry : Nat)
      (stub : Option Nat) :
      stub_find_dynamic B S name generate strdup_ok entry = .ok (stub, S') → Step B S S'
  | fix_dynamic {S : State} (stub : Nat) (alias_ : Option StubRef) :
      stub < B.MAPI_TABLE_NUM_DYNAMIC → (∀ a, alias_ = some a → a.in_table B) →
      Step B S (stub_fix_dynamic B S stub alias_)
  | restore_funcs {S S' : State} : stubRestoreFuncs B S = .ok S' → Step B S S'
  | cleanup_dynamic {S : State} : Step B S (stub_cleanup_dynamic B S)

/-- The states reachable from the initial state by any sequence of calls. -/
inductive Reachable (B : Build) : State → Prop where
  | init : Reachable B (State.init B)
  | step {S S' : State} : Reachable B S → Step B S S' → Reachable B S'

/-- One call, as `Step`, where `stub_fix_dynamic` is only applied to a
registered dynamic stub, with an alias that is `NULL` or a stub of the
registry. -/
inductive RegStep (B : Build) : State → State → Prop where
  | find_dynamic {S S' : State} (name : List Char) (generate strdup_ok : Bool) (entry : Nat)
      (stub : Option Nat) :
      stub_find_dynamic B S name generate strdup_ok entry = .ok (stub, S') → RegStep B S S'
  | fix_dynamic {S : State} (stub : Nat) (alias_ : Option StubRef) :
      stub < S.num_dynamic_stubs → (∀ a, alias_ = some a → a.in_registry B S) →
      RegStep B S (stub_fix_dynamic B S stub alias_)
  | restore_funcs {S S' : State} : stubRestoreFuncs B S = .ok S' → RegStep B S S'
  | cleanup_dynamic {S : State} : RegStep B S (stub_cleanup_dynamic B S)

/-- The states reachable from the initial state by calls in which
`stub_fix_dynamic` only gets stubs of the registry. -/
inductive RegReachable (B : Build) : State → Prop where
  | init : RegReachable B (State.init B)
  | step {S S' : State} : RegReachable B S → RegStep B S S' → RegReachable B S'

/-- What holds of the dynamic table in every reachable state: the array keeps
its size, the last element is never registered, every registered stub has a
name and an entry, the registered names are pairwise distinct and each passed
the guard `assert(!stub_find_public(name))`, and the slot counter never
falls below `MAPI_TABLE_NUM_STATIC`. -/
structure Inv (B : Build) (S : State) : Prop where
  length : S.dynamic_stubs.length = B.MAPI_TABLE_NUM_DYNAMIC
  num : S.num_dynamic_stubs = 0 ∨ S.num_dynamic_stubs + 1 ≤ B.MAPI_TABLE_NUM_DYNAMIC
  names : ∀ stub ∈ S.registered, stub.nameBuffer ≠ none
  nodup : (S.registered.map (fun stub => stub.nameBuffer)).Nodup
  guard : ∀ stub ∈ S.registered, ∀ n, stub.nameBuffer = some n → stub_find_public B n = none
  addr : ∀ stub ∈ S.registered, stub.addr ≠ 0
  next : (B.MAPI_TABLE_NUM_STATIC : Int) ≤ S.next_dynamic_slot

/-- What holds of the slots when `stub_fix_dynamic` only gets stubs of the
registry and every static slot is below `MAPI_TABLE_NUM_STATIC`: every
registered dynamic stub has a slot below the counter, and the counter has
left `MAPI_TABLE_NUM_STATIC` only if a registered stub holds a slot from
`MAPI_TABLE_NUM_STATIC` on. -/
structure RegInv (B : Build) (S : State) : Prop where
  below : ∀ stub ∈ S.registered, stub.slot < S.next_dynamic_slot
  first : S.next_dynamic_slot = B.MAPI_TABLE_NUM_STATIC ∨
    ∃ stub ∈ S.registered, (B.MAPI_TABLE_NUM_STATIC : Int) ≤ stub.slot

/-- The state after `stub_find_dynamic(name, 1)` when `strdup` succeeds and
`entry_generate` returns `entry`; the state is kept when the call stops on
its assertion. -/
def after_find (B : Build) (S : State) (name : String) (entry : Nat) : State :=
  match stub_find_dynamic B S name.toList true true entry with
  | .ok (_, S') => S'
  | .error _ => S

/-- The scenario after the registration of `FooBarEXT`. -/
def scenario_one : State := after_find scenario (State.init scenario) "FooBarEXT" 8192

/-- The scenario after the registration of `FooBarEXT` and `BazEXT`. -/
def scenario_two : State := after_find scenario scenario_one "BazEXT" 8208

/-- The scenario after the registration of `FooBarEXT`, `BazEXT` and
`QuxEXT`: the dynamic table, of capacity 4, holds 3 stubs. -/
def scenario_three : State := after_find scenario scenario_two "QuxEXT" 8224

/-- The table `gl_named` after the registration of the dynamic name `glow`. -/
def gl_named_one : State := after_find gl_named (State.init gl_named) "glow" 8192

/-- The scenario after the registration of `FooBarEXT` and the call
`stub_fix_dynamic(stub, NULL)` on it. -/
def scenario_fixed : State := stub_fix_dynamic scenario scenario_one 0 none

/-! ## Patch callbacks: the calls of `stubRestoreFuncs` and the entries -/

/-- The scenario built with the pure C entry backend of `entry_pure_c.h`:
`entry_type = ENTRY_PURE_C` and `entry_stub_size = 0`. -/
def scenario_pure_c : Build := { scenario with entry_type := 3, entry_stub_size := 0 }

/-- The scenario built with a negative `entry_stub_size`. -/
def scenario_negative : Build := { scenario with entry_stub_size := -1 }

/-- The slot `stubRestoreFuncs` resets a stub to:
`(stub->slot == -1) ? MAPI_LAST_SLOT : stub->slot`. -/
def restore_slot (B : Build) (stub : mapi_stub) : Int :=
  if stub.slot = -1 then MAPI_LAST_SLOT B else stub.slot

/-- The value of `stub_get_addr` when its assertion holds:
`(stub->addr) ? stub->addr : entry_get_public(stub->slot)`. -/
def stub_addr (B : Build) (stub : mapi_stub) : Nat :=
  if stub.addr ≠ 0 then stub.addr else entry_get_public B stub.slot

/-- The call `entry_generate_default_code(stub_get_addr(stub), slot)` that
`stubRestoreFuncs` makes for a stub. -/
def restore_call (B : Build) (stub : mapi_stub) : EntryCall :=
  EntryCall.generate_default_code (stub_addr B stub) (restore_slot B stub)

/-- The entry a call to the backend writes: the one returned by
`entry_generate`, the one given to `entry_patch` or to
`entry_generate_default_code`. -/
def EntryCall.entry : EntryCall → Nat
  | .generate _ result => result
  | .patch entry _ => entry
  | .generate_default_code entry _ => entry

/-- The state of the entry at an address after a list of calls to the
backend, oldest first: the last call that wrote it, in a backend where what
a call writes is determined by the call. -/
def trampoline : List EntryCall → Nat → Option EntryCall
  | [], _ => none
  | call :: rest, addr =>
    match trampoline rest addr with
    | some later => some later
    | none => if call.entry = addr then some call else none

/-- The function `stubGetPatchOffset`.  `writePtr` and `execPtr` are `none`
for `NULL` and otherwise hold the value of the pointed location; the result
holds the returned boolean and the values of the two locations afterwards. -/
def stubGetPatchOffset (B : Build) (S : State) (name : List Char)
    (writePtr execPtr : Option Nat) :
    Except Fault (Bool × Option Nat × Option Nat × State) :=
  let found : Except Fault (Option StubRef × State) :=
    match stub_find_public B name with
    | some i => .ok (some (StubRef.static i), S)
    | none =>
      match stub_find_dynamic B S name false false 0 with
      | .error f => .error f
      | .ok (stub, S') => .ok (stub.map StubRef.dynamic, S')
  match found with
  | .error f => .error f
  | .ok (stub, S') =>
    let addr : Except Fault Nat :=
      match stub with
      | some ref => stub_get_addr B (deref B S' ref)
      | none => .ok 0
    match addr with
    | .error f => .error f
    | .ok addr =>
      .ok (decide (addr ≠ 0), writePtr.map (fun _ => addr), execPtr.map (fun _ => addr), S')

/-- The function `stubFinishPatch`. -/
def stubFinishPatch (S : State) : State := S

/-- The function `stubGetStubType`. -/
def stubGetStubType (B : Build) : Int := B.entry_type

/-- The function `stubGetStubSize`. -/
def stubGetStubSize (B : Build) : Int := B.entry_stub_size

/-- The table `__GLdispatchStubPatchCallbacks`. -/
structure GLdispatchStubPatchCallbacks where
  startPatch : Bool
  finishPatch : State → State
  abortPatch : State → Except Fault State
  restoreFuncs : State → Except Fault State
  getPatchOffset : State → List Char → Option Nat → Option Nat →
    Except Fault (Bool × Option Nat × Option Nat × State)
  getStubType : Int
  getStubSize : Int

/-- The constant `stubPatchCallbacks`. -/
def stubPatchCallbacks (B : Build) : GLdispatchStubPatchCallbacks :=
  { startPatch := stubStartPatch B
    finishPatch := stubFinishPatch
    abortPatch := stubAbortPatch B
    restoreFuncs := stubRestoreFuncs B
    getPatchOffset := stubGetPatchOffset B
    getStubType := stubGetStubType B
    getStubSize := stubGetStubSize B }

/-- The function `stub_get_patch_callbacks`, `none` for `NULL`. -/
def stub_get_patch_callbacks (B : Build) : Option GLdispatchStubPatchCallbacks :=
  if stub_allow_override B then some (stubPatchCallbacks B) else none

/-- The static table suits `stub_get_addr`: every static stub has an
address of its own or a slot in `[0, MAPI_TABLE_NUM_STATIC)`. -/
def public_addressable (B : Build) : Prop :=
  ∀ p ∈ B.public_stubs, p.addr ≠ 0 ∨ (0 ≤ p.slot ∧ p.slot < (B.MAPI_TABLE_NUM_STATIC : Int))

instance (B : Build) : Decidable (public_addressable B) := by
  unfold public_addressable; infer_instance

/-! ## Sequences of calls -/

/-- The dynamic stub a successful registration creates. -/
def new_stub (request : List Char × Nat) : mapi_stub :=
  { nameOffset := 0, slot := -1, addr := request.2, nameBuffer := some request.1 }

/-- Threads that each call `stub_find_dynamic(name, 1)` once, a request being
the name and the entry `entry_generate` returns to that thread (`strdup`
succeeds): the registry, the requests of the threads still before
`u_mutex_lock`, the request of the thread between `u_mutex_lock` and
`u_mutex_unlock`, and the requests of the threads that have returned, each
with the stub it got, first to return first. -/
structure Threads where
  registry : State
  waiting : List (List Char × Nat)
  holder : Option (List Char × Nat)
  returned : List ((List Char × Nat) × Option Nat)

/-- Modelled from the spec: the macros `u_mutex_lock` and `u_mutex_unlock` of
`u_thread.h`, one mutual-exclusion lock held for the whole body of
`stub_find_dynamic`.  A thread takes the mutex only when no thread holds it;
the thread that holds it runs the body, which is all that reads or writes the
dynamic table, and releases the mutex. -/
inductive ThreadStep (B : Build) : Threads → Threads → Prop where
  | lock (T : Threads) (r : List Char × Nat) (before after : List (List Char × Nat)) :
      T.holder = none → T.waiting = before ++ r :: after →
      ThreadStep B T { T with waiting := before ++ after, holder := some r }
  | run (T : Threads) (r : List Char × Nat) (stub : Option Nat) (S' : State) :
      T.holder = some r →
      stub_find_dynamic B T.registry r.1 true true r.2 = .ok (stub, S') →
      ThreadStep B T
        { registry := S', waiting := T.waiting, holder := none,
          returned := T.returned ++ [(r, stub)] }

/-- An interleaving of the threads: any sequence of steps of any of them. -/
inductive Interleaving (B : Build) : Threads → Threads → Prop where
  | refl {T : Threads} : Interleaving B T T
  | step {T T' T'' : Threads} :
      Interleaving B T T' → ThreadStep B T' T'' → Interleaving B T T''

/-- What holds at every point of an interleaving that starts in the state `S`
with the threads of `requests` all waiting. -/
structure ThreadsInv (B : Build) (S : State) (requests : List (List Char × Nat))
    (T : Threads) : Prop where
  reachable : Reachable B T.registry
  threads : (T.waiting ++ T.holder.toList ++ T.returned.map Prod.fst).Perm requests
  registered : T.registry.registered
    = S.registered ++ (T.returned.map Prod.fst).map new_stub
  num : T.registry.num_dynamic_stubs = S.num_dynamic_stubs + T.returned.length
  stubs : ∀ q ∈ T.returned, q.2 ≠ none

/-- The number of registered dynamic stubs whose slot is fixed (`slot >= 0`). -/
def fixed_count (S : State) : Nat :=
  S.registered.countP (fun stub => decide (0 ≤ stub.slot))

/-- What holds of the slot counter when `stub_fix_dynamic` only gets stubs of
the registry and every static slot is in `[0, MAPI_TABLE_NUM_STATIC)`: the
counter has advanced at most once for each fixed registered stub, and the slot
of a registered stub is `-1` or not negative. -/
structure SlotInv (B : Build) (S : State) : Prop where
  count : S.next_dynamic_slot ≤ (B.MAPI_TABLE_NUM_STATIC : Int) + (fixed_count S : Int)
  range : ∀ stub ∈ S.registered, stub.slot = -1 ∨ 0 ≤ stub.slot

/-- One call of `stub_find_dynamic`, `stub_fix_dynamic` or `stubRestoreFuncs`
that returns normally. -/
inductive NoResetStep (B : Build) : State → State → Prop where
  | find_dynamic {S S' : State} (name : List Char) (generate strdup_ok : Bool) (entry : Nat)
      (stub : Option Nat) :
      stub_find_dynamic B S name generate strdup_ok entry = .ok (stub, S') →
      NoResetStep B S S'
  | fix_dynamic {S : State} (stub : Nat) (alias_ : Option StubRef) :
      NoResetStep B S (stub_fix_dynamic B S stub alias_)
  | restore_funcs {S S' : State} : stubRestoreFuncs B S = .ok S' → NoResetStep B S S'

/-- Any sequence of calls without `stub_cleanup_dynamic`. -/
inductive NoReset (B : Build) : State → State → Prop where
  | refl {S : State} : NoReset B S S
  | step {S S' S'' : State} : NoReset B S S' → NoResetStep B S' S'' → NoReset B S S''

/-- Two threads of the scenario, requesting `FooBarEXT` and `BazEXT`, before
either has taken the mutex. -/
def two_threads : Threads :=
  { registry := State.init scenario
    waiting := [("FooBarEXT".toList, 8192), ("BazEXT".toList, 8208)]
    holder := none
    returned := [] }

/-- The two threads of the scenario after both have returned, `BazEXT` first. -/
def two_threads_returned : Threads :=
  { registry := after_find scenario (after_find scenario (State.init scenario) "BazEXT" 8208)
      "FooBarEXT" 8192
    waiting := []
    holder := none
    returned := [(("BazEXT".toList, 8208), some 0), (("FooBarEXT".toList, 8192), some 1)] }

/-! ## Theorems: the C library model -/

theorem strcmp_self (a : List Char) : strcmp a a = 0 := by
  induction a with
  | nil => rfl
  | cons c cs ih => simp [strcmp, ih]

theorem strcmp_eq_zero {a b : List Char} (h : strcmp a b = 0) : a = b := by
  induction a generalizing b with
  | nil =>
    cases b with
    | nil => rfl
    | cons d ds => simp [strcmp] at h
  | cons c cs ih =>
    cases b with
    | nil => simp [strcmp] at h
    | cons d ds =>
      simp only [strcmp] at h
      split_ifs at h with h1 h2
      · omega
      · have h1' : ¬ c.val.toNat < d.val.toNat := h1
        have h2' : ¬ d.val.toNat < c.val.toNat := h2
        have hcd : c = d :=
          Char.eq_of_val_eq (UInt32.toNat.inj (Nat.le_antisymm (by omega) (by omega)))
        rw [hcd, ih h]

theorem strcmp_eq_zero_iff (a b : List Char) : strcmp a b = 0 ↔ a = b :=
  ⟨strcmp_eq_zero, fun h => h ▸ strcmp_self a⟩

theorem strcmp_swap {a b : List Char} (h : strcmp a b < 0) : 0 < strcmp b a := by
  induction a generalizing b with
  | nil =>
    cases b with
    | nil => simp [strcmp] at h
    | cons d ds => simp [strcmp]
  | cons c cs ih =>
    cases b with
    | nil => simp [strcmp] at h
    | cons d ds =>
      simp only [strcmp] at h ⊢
      split_ifs at h with h1 h2
      · rw [if_neg (by omega), if_pos h1]; decide
      · omega
      · rw [if_neg h2, if_neg h1]; exact ih h

theorem strcmp_swap_pos {a b : List Char} (h : 0 < strcmp a b) : strcmp b a < 0 := by
  induction a generalizing b with
  | nil =>
    cases b with
    | nil => simp [strcmp] at h
    | cons d ds => simp [strcmp] at h
  | cons c cs ih =>
    cases b with
    | nil => simp [strcmp]
    | cons d ds =>
      simp only [strcmp] at h ⊢
      split_ifs at h with h1 h2
      · omega
      · rw [if_pos h2]; decide
      · rw [if_neg h2, if_neg h1]; exact ih h

theorem strcmp_trans {a b c : List Char} (hab : strcmp a b < 0) (hbc : strcmp b c < 0) :
    strcmp a c < 0 := by
  induction a generalizing b c with
  | nil =>
    cases b with
    | nil => simp [strcmp] at hab
    | cons y ys =>
      cases c with
      | nil => simp [strcmp] at hbc
      | cons z zs => simp [strcmp]
  | cons x xs ih =>
    cases b with
    | nil => simp [strcmp] at hab
    | cons y ys =>
      cases c with
      | nil => simp [strcmp] at hbc
      | cons z zs =>
        simp only [strcmp] at hab hbc ⊢
        split_ifs at hab with h1 h2 <;> split_ifs at hbc with h3 h4
        · rw [if_pos (by omega)]; decide
        · omega
        · rw [if_pos (by omega)]; decide
        · omega
        · omega
        · omega
        · rw [if_pos (by omega)]; decide
        · omega
        · rw [if_neg (by omega), if_neg (by omega)]; exact ih hab hbc

theorem bsearch_loop_sound {κ α : Type} (key : κ) (base : List α) (compar : κ → α → Int) :
    ∀ (fuel l u i : Nat), bsearch_loop key base compar fuel l u = some i →
      ∃ p, base[i]? = some p ∧ compar key p = 0 := by
  intro fuel
  induction fuel with
  | zero => intro l u i h; simp [bsearch_loop] at h
  | succ n ih =>
    intro l u i h
    simp only [bsearch_loop] at h
    split_ifs at h with hlu
    cases hq : base[(l + u) / 2]? with
    | none => simp [hq] at h
    | some q =>
      simp only [hq] at h
      split_ifs at h with h1 h2
      · exact ih _ _ _ h
      · exact ih _ _ _ h
      · cases h
        exact ⟨q, hq, by omega⟩

theorem bsearch_loop_complete {κ α : Type} (key : κ) (base : List α) (compar : κ → α → Int)
    (hord : bsearch_ordered key base compar) :
    ∀ (fuel l u j : Nat) (p : α), base[j]? = some p → compar key p = 0 → l ≤ j → j < u →
      u ≤ base.length → u - l ≤ fuel → bsearch_loop key base compar fuel l u = some j := by
  intro fuel
  induction fuel with
  | zero => intro l u j p _ _ h1 h2 _ h4; omega
  | succ n ih =>
    intro l u j p hj hp hlj hju hu hfuel
    simp only [bsearch_loop]
    rw [if_pos (by omega)]
    have hidx : (l + u) / 2 < base.length := by omega
    have hq : base[(l + u) / 2]? = some (base[(l + u) / 2]) := List.getElem?_eq_getElem hidx
    simp only [hq]
    split_ifs with h1 h2
    · have hlt : j < (l + u) / 2 := by
        by_contra hge
        rcases Nat.lt_or_ge ((l + u) / 2) j with hlt | hle
        · have := (hord _ _ _ _ hlt hq hj).1 (by omega)
          omega
        · have hjeq : j = (l + u) / 2 := by omega
          rw [hjeq, hq] at hj
          cases hj
          omega
      exact ih _ _ _ _ hj hp hlj hlt (by omega) (by omega)
    · have hlt : (l + u) / 2 < j := by
        by_contra hge
        rcases Nat.lt_or_ge j ((l + u) / 2) with hlt | hle
        · have := (hord _ _ _ _ hlt hj hq).2 (by omega)
          omega
        · have hjeq : j = (l + u) / 2 := by omega
          rw [hjeq, hq] at hj
          cases hj
          omega
      exact ih _ _ _ _ hj hp (by omega) hju hu (by omega)
    · rcases Nat.lt_trichotomy j ((l + u) / 2) with hlt | heq | hgt
      · have := (hord _ _ _ _ hlt hj hq).1 (by omega)
        omega
      · rw [heq]
      · have := (hord _ _ _ _ hgt hq hj).2 (by omega)
        omega

theorem bsearch_complete {κ α : Type} (key : κ) (base : List α) (compar : κ → α → Int)
    (hord : bsearch_ordered key base compar) (j : Nat) (p : α) (hj : base[j]? = some p)
    (hp : compar key p = 0) : bsearch key base compar = some j := by
  have hlen : j < base.length := by
    rcases List.getElem?_eq_some.mp hj with ⟨h, _⟩
    exact h
  exact bsearch_loop_complete key base compar hord _ 0 _ j p hj hp (by omega) hlen
    (le_refl _) (by omega)

theorem first_index_some {α : Type} (p : α → Bool) :
    ∀ (l : List α) (k i : Nat), first_index p l k = some i →
      k ≤ i ∧ (∃ x, l[i - k]? = some x ∧ p x = true) ∧
        ∀ (j : Nat) (y : α), j < i - k → l[j]? = some y → p y = false := by
  intro l
  induction l with
  | nil => intro k i h; simp [first_index] at h
  | cons x rest ih =>
    intro k i h
    simp only [first_index] at h
    split_ifs at h with hx
    · cases h
      simp [hx]
    · obtain ⟨hk, ⟨y, hy, hpy⟩, hbefore⟩ := ih _ _ h
      refine ⟨by omega, ⟨y, ?_, hpy⟩, ?_⟩
      · have : i - k = (i - (k + 1)) + 1 := by omega
        rw [this, List.getElem?_cons_succ]
        exact hy
      · intro j z hj hz
        cases j with
        | zero =>
          simp at hz
          rw [← hz]
          simpa using hx
        | succ m =>
          rw [List.getElem?_cons_succ] at hz
          exact hbefore m z (by omega) hz

theorem first_index_none {α : Type} (p : α → Bool) :
    ∀ (l : List α) (k : Nat), first_index p l k = none ↔ ∀ x ∈ l, p x = false := by
  intro l
  induction l with
  | nil => intro k; simp [first_index]
  | cons x rest ih =>
    intro k
    simp only [first_index]
    split_ifs with hx
    · simp [hx]
    · simp [ih (k + 1), hx]

theorem first_index_of_first {α : Type} (p : α → Bool) :
    ∀ (l : List α) (k j : Nat) (x : α), l[j]? = some x → p x = true →
      (∀ (m : Nat) (y : α), m < j → l[m]? = some y → p y = false) →
      first_index p l k = some (k + j) := by
  intro l
  induction l with
  | nil => intro k j x h; simp at h
  | cons a rest ih =>
    intro k j x hj hx hbefore
    simp only [first_index]
    cases j with
    | zero =>
      simp at hj
      rw [hj, if_pos hx]
      rfl
    | succ m =>
      have ha : p a = false := hbefore 0 a (by omega) (by simp)
      rw [if_neg (by simp [ha])]
      rw [List.getElem?_cons_succ] at hj
      have := ih (k + 1) m x hj hx (fun m' y hm hy => hbefore (m' + 1) y (by omega)
        (by rw [List.getElem?_cons_succ]; exact hy))
      rw [this]
      congr 1
      omega

/-! ## Theorems: static lookup -/

theorem public_sorted_ordered (B : Build) (hs : public_sorted B) (key : List Char) :
    bsearch_ordered key B.public_stubs (stub_compare B) := by
  intro i j pi pj hij hi hj
  obtain ⟨hil, hie⟩ := List.getElem?_eq_some.mp hi
  obtain ⟨hjl, hje⟩ := List.getElem?_eq_some.mp hj
  have hlt : strcmp (public_name B pi) (public_name B pj) < 0 := by
    have := (List.pairwise_iff_getElem.mp hs) i j hil hjl hij
    rw [hie, hje] at this
    exact this
  simp only [stub_compare]
  change (0 ≤ strcmp key (public_name B pj) → 0 < strcmp key (public_name B pi)) ∧
    (strcmp key (public_name B pi) ≤ 0 → strcmp key (public_name B pj) < 0)
  constructor
  · intro h
    rcases lt_or_eq_of_le h with h | h
    · exact strcmp_swap (strcmp_trans hlt (strcmp_swap_pos h))
    · rw [strcmp_eq_zero h.symm]
      exact strcmp_swap hlt
  · intro h
    rcases lt_or_eq_of_le h with h | h
    · exact strcmp_trans h hlt
    · rw [strcmp_eq_zero h]
      exact hlt

theorem stub_find_public_eq_scan (B : Build) (hs : public_sorted B) (name : List Char) :
    stub_find_public B name = scan_public B (skip_gl name) := by
  simp only [stub_find_public]
  cases hscan : scan_public B (skip_gl name) with
  | none =>
    have hno := (first_index_none _ _ _).mp hscan
    cases hb : bsearch (skip_gl name) B.public_stubs (stub_compare B) with
    | none => rfl
    | some i =>
      obtain ⟨p, hp, hcmp⟩ := bsearch_loop_sound _ _ _ _ _ _ _ hb
      have hmem : p ∈ B.public_stubs := List.getElem?_mem hp
      have := hno p hmem
      simp only [decide_eq_false_iff_not] at this
      exact absurd (strcmp_eq_zero hcmp).symm this
  | some i =>
    obtain ⟨_, ⟨x, hx, hpx⟩, _⟩ := first_index_some _ _ _ _ hscan
    simp only [decide_eq_true_eq, Nat.sub_zero] at hpx hx
    apply bsearch_complete _ _ _ (public_sorted_ordered B hs _) i x hx
    simp only [stub_compare]
    exact (strcmp_eq_zero_iff _ _).mpr hpx.symm

theorem scan_public_of_mem (B : Build) (hs : public_sorted B) (stub : mapi_stub)
    (hmem : stub ∈ B.public_stubs) :
    ∃ i, scan_public B (public_name B stub) = some i ∧ B.public_stubs[i]? = some stub := by
  cases hscan : scan_public B (public_name B stub) with
  | none =>
    have := (first_index_none _ _ _).mp hscan stub hmem
    simp at this
  | some i =>
    obtain ⟨_, ⟨x, hx, hpx⟩, _⟩ := first_index_some _ _ _ _ hscan
    simp only [decide_eq_true_eq, Nat.sub_zero] at hpx hx
    refine ⟨i, rfl, ?_⟩
    obtain ⟨j, hj, hje⟩ := List.getElem_of_mem hmem
    obtain ⟨hi, hie⟩ := List.getElem?_eq_some.mp hx
    have hpw := List.pairwise_iff_getElem.mp hs
    rcases Nat.lt_trichotomy i j with hlt | heq | hgt
    · have := hpw i j hi hj hlt
      rw [hie, hje, hpx, strcmp_self] at this
      omega
    · subst heq
      rw [hx, ← hie, hje]
    · have := hpw j i hj hi hgt
      rw [hie, hje, hpx, strcmp_self] at this
      omega

/-- C1, as stated, fails on a sorted table with a name that begins with
`gl`: in `gl_named` the name `glow` is the name of the static stub 1, the
linear scan finds it, and `stub_find_public` of that name finds nothing. -/
theorem stub_find_public_gl_name_lost :
    public_sorted gl_named ∧
      (∃ stub ∈ gl_named.public_stubs, public_name gl_named stub = "glow".toList) ∧
      scan_public gl_named "glow".toList = some 1 ∧
      stub_find_public gl_named "glow".toList = none := by
  decide

/-- C1 (amended): on a strictly sorted static table, for the name `s` of every
static stub, `stub_find_public ("gl" ++ s)` returns what the full linear scan
for `s` returns, so does `stub_find_public s` when `s` does not itself begin
with `gl`, and that result is the stub named `s`; and for a name whose
normalised form is the name of no static stub, `stub_find_public` returns
not-found. -/
theorem stub_find_public_scan (B : Build) (hs : public_sorted B) :
    (∀ stub ∈ B.public_stubs,
      stub_find_public B ('g' :: 'l' :: public_name B stub)
          = scan_public B (public_name B stub) ∧
        ((∀ rest, public_name B stub ≠ 'g' :: 'l' :: rest) →
          stub_find_public B (public_name B stub) = scan_public B (public_name B stub)) ∧
        ∃ i, scan_public B (public_name B stub) = some i ∧ B.public_stubs[i]? = some stub) ∧
    (∀ name : List Char, (∀ stub ∈ B.public_stubs, public_name B stub ≠ skip_gl name) →
      stub_find_public B name = none) := by
  constructor
  · intro stub hmem
    refine ⟨?_, ?_, scan_public_of_mem B hs stub hmem⟩
    · rw [stub_find_public_eq_scan B hs]
      rfl
    · intro hgl
      rw [stub_find_public_eq_scan B hs]
      have : skip_gl (public_name B stub) = public_name B stub := by
        unfold skip_gl
        split
        · exact absurd (by assumption) (hgl _)
        · rfl
      rw [this]
  · intro name hno
    rw [stub_find_public_eq_scan B hs]
    apply (first_index_none _ _ _).mpr
    intro x hx
    simpa using hno x hx

/-- C1, on the scenario of the specification: `stub_find_public "glClear"`
and `stub_find_public "Clear"` both return the stub at index 2, whose slot
is 2. -/
theorem stub_find_public_scan_witness :
    public_sorted scenario ∧
      stub_find_public scenario "glClear".toList = some 2 ∧
      stub_find_public scenario "Clear".toList = some 2 ∧
      (scenario.public_stubs.getD 2 default).slot = 2 :=
  ⟨by decide,
    ((stub_find_public_scan scenario (by decide)).1
      (scenario.public_stubs.getD 2 default) (by decide)).1.trans (by decide),
    (((stub_find_public_scan scenario (by decide)).1
      (scenario.public_stubs.getD 2 default) (by decide)).2.1
        (fun rest h => absurd (show _ = some 'g' from congrArg List.head? h)
          (by decide))).trans (by decide),
    by decide⟩

/-! ## Theorems: the operations on the dynamic table -/

theorem take_set_ge {α : Type} (l : List α) (n m : Nat) (a : α) (h : m ≤ n) :
    (l.set n a).take m = l.take m := by
  induction l generalizing n m with
  | nil => simp
  | cons x rest ih =>
    cases m with
    | zero => simp
    | succ k =>
      cases n with
      | zero => omega
      | succ j => simp [ih j k (by omega)]

theorem take_succ_set {α : Type} (l : List α) (n : Nat) (a : α) (h : n < l.length) :
    (l.set n a).take (n + 1) = l.take n ++ [a] := by
  rw [List.take_succ, List.getElem?_set_self h, take_set_ge l n n a (le_refl _)]
  rfl

theorem first_index_append {α : Type} (p : α → Bool) (l₁ l₂ : List α) (k : Nat) :
    first_index p (l₁ ++ l₂) k =
      match first_index p l₁ k with
      | some i => some i
      | none => first_index p l₂ (k + l₁.length) := by
  induction l₁ generalizing k with
  | nil => simp [first_index]
  | cons x rest ih =>
    simp only [List.cons_append, first_index]
    split_ifs with hx
    · rfl
    · have := ih (k + 1)
      simp only [List.length_cons]
      have hk : k + 1 + rest.length = k + (rest.length + 1) := by omega
      rw [hk] at this
      exact this

theorem first_index_lt {α : Type} (p : α → Bool) (l : List α) (k i : Nat)
    (h : first_index p l k = some i) : i < k + l.length := by
  obtain ⟨hk, ⟨x, hx, _⟩, _⟩ := first_index_some p l k i h
  obtain ⟨hlt, _⟩ := List.getElem?_eq_some.mp hx
  omega

theorem name_matches_iff (name : List Char) (stub : mapi_stub) :
    name_matches name stub = true ↔ stub.nameBuffer = some name := by
  unfold name_matches
  cases h : stub.nameBuffer with
  | none => simp
  | some buffer =>
    simp only [decide_eq_true_eq, strcmp_eq_zero_iff, Option.some.injEq]
    exact eq_comm

theorem stub_add_dynamic_none_iff (B : Build) (S : State) (name : List Char)
    (strdup_ok : Bool) (entry : Nat) :
    (stub_add_dynamic B S name strdup_ok entry).1 = none ↔
      ((S.num_dynamic_stubs : Int) ≥ (B.MAPI_TABLE_NUM_DYNAMIC : Int) - 1 ∨
        strdup_ok = false ∨ entry = 0) := by
  unfold stub_add_dynamic
  by_cases hcap : (S.num_dynamic_stubs : Int) ≥ (B.MAPI_TABLE_NUM_DYNAMIC : Int) - 1
  · simp [hcap]
  · cases strdup_ok with
    | false => simp [hcap]
    | true =>
      by_cases he : entry = 0
      · simp [hcap, he]
      · simp [hcap, he]

theorem stub_add_dynamic_none (B : Build) (S : State) (name : List Char)
    (strdup_ok : Bool) (entry : Nat)
    (h : (stub_add_dynamic B S name strdup_ok entry).1 = none) :
    (stub_add_dynamic B S name strdup_ok entry).2.num_dynamic_stubs = S.num_dynamic_stubs ∧
      (stub_add_dynamic B S name strdup_ok entry).2.next_dynamic_slot = S.next_dynamic_slot ∧
      (stub_add_dynamic B S name strdup_ok entry).2.registered = S.registered ∧
      (stub_add_dynamic B S name strdup_ok entry).2.dynamic_stubs.length
        = S.dynamic_stubs.length := by
  unfold stub_add_dynamic at h ⊢
  by_cases hcap : (S.num_dynamic_stubs : Int) ≥ (B.MAPI_TABLE_NUM_DYNAMIC : Int) - 1
  · simp [hcap]
  · cases strdup_ok with
    | false => simp [hcap, State.registered, take_set_ge]
    | true =>
      by_cases he : entry = 0
      · simp [hcap, he, State.registered, take_set_ge]
      · simp [hcap, he] at h

theorem stub_add_dynamic_some (B : Build) (S : State) (name : List Char) (entry : Nat)
    (hcap : (S.num_dynamic_stubs : Int) < (B.MAPI_TABLE_NUM_DYNAMIC : Int) - 1)
    (he : entry ≠ 0) :
    stub_add_dynamic B S name true entry =
      (some S.num_dynamic_stubs,
        { dynamic_stubs := S.dynamic_stubs.set S.num_dynamic_stubs
            { nameOffset := 0, slot := -1, addr := entry, nameBuffer := some name }
          num_dynamic_stubs := S.num_dynamic_stubs + 1
          next_dynamic_slot := S.next_dynamic_slot
          entry_calls := S.entry_calls ++ [EntryCall.generate (MAPI_LAST_SLOT B) entry] }) := by
  unfold stub_add_dynamic
  have : ¬ ((S.num_dynamic_stubs : Int) ≥ (B.MAPI_TABLE_NUM_DYNAMIC : Int) - 1) := by omega
  simp [this, he]

theorem stub_find_dynamic_cases (B : Build) (S S' : State) (name : List Char)
    (generate strdup_ok : Bool) (entry : Nat) (stub : Option Nat)
    (h : stub_find_dynamic B S name generate strdup_ok entry = .ok (stub, S')) :
    (generate = true → stub_find_public B name = none) ∧
      ((S' = S ∧ stub = first_index (name_matches name) S.registered 0 ∧
          (generate = false ∨ stub.isSome = true)) ∨
        (generate = true ∧ first_index (name_matches name) S.registered 0 = none ∧
          stub_add_dynamic B S name strdup_ok entry = (stub, S'))) := by
  simp only [stub_find_dynamic] at h
  change (if (generate && (stub_find_public B name).isSome) = true then Except.error Fault.assertion
    else if (generate && (first_index (name_matches name) S.registered 0).isNone) = true
      then Except.ok (stub_add_dynamic B S name strdup_ok entry)
      else Except.ok (first_index (name_matches name) S.registered 0, S)) = _ at h
  split_ifs at h with hguard hgen
  · refine ⟨?_, Or.inr ?_⟩
    · intro hg
      cases hp : stub_find_public B name with
      | none => rfl
      | some i => simp [hg, hp] at hguard
    · simp only [Bool.and_eq_true, Option.isNone_iff_eq_none] at hgen
      refine ⟨hgen.1, hgen.2, ?_⟩
      injection h
  · refine ⟨?_, Or.inl ?_⟩
    · intro hg
      cases hp : stub_find_public B name with
      | none => rfl
      | some i => simp [hg, hp] at hguard
    · injection h with h
      injection h with h1 h2
      refine ⟨h2.symm, h1.symm, ?_⟩
      cases generate with
      | false => exact Or.inl rfl
      | true =>
        right
        rw [← h1]
        simp only [Bool.true_and, Option.isNone_iff_eq_none] at hgen
        cases hf : first_index (name_matches name) S.registered 0 with
        | none => exact absurd hf hgen
        | some i => rfl

theorem stubRestoreFuncs_frame (B : Build) (S S' : State) (h : stubRestoreFuncs B S = .ok S') :
    S'.dynamic_stubs = S.dynamic_stubs ∧ S'.num_dynamic_stubs = S.num_dynamic_stubs ∧
      S'.next_dynamic_slot = S.next_dynamic_slot := by
  unfold stubRestoreFuncs at h
  split_ifs at h
  split at h
  · cases h
  · split at h
    · cases h
    · injection h with h
      subst h
      exact ⟨rfl, rfl, rfl⟩

theorem length_free_names (n : Nat) (l : List mapi_stub) :
    (free_names n l).length = l.length := by
  induction l generalizing n with
  | nil => cases n <;> simp [free_names]
  | cons x rest ih => cases n <;> simp [free_names, ih]

theorem mem_registered_iff (S : State) (stub : mapi_stub) :
    stub ∈ S.registered ↔
      ∃ j, j < S.num_dynamic_stubs ∧ S.dynamic_stubs[j]? = some stub := by
  unfold State.registered
  constructor
  · intro h
    obtain ⟨j, hj, hje⟩ := List.getElem_of_mem h
    have hlt : j < S.num_dynamic_stubs := by
      rw [List.length_take] at hj
      omega
    refine ⟨j, hlt, ?_⟩
    rw [← List.getElem?_take_of_lt hlt, List.getElem?_eq_getElem hj, hje]
  · rintro ⟨j, hj, hje⟩
    rw [← List.getElem?_take_of_lt hj] at hje
    exact List.getElem?_mem hje

theorem map_take_set_slot {β : Type} (f : mapi_stub → β)
    (hf : ∀ (s : mapi_stub) (v : Int), f { s with slot := v } = f s)
    (l : List mapi_stub) (i n : Nat) (v : Int) :
    ((l.set i { l.getD i default with slot := v }).take n).map f = (l.take n).map f := by
  induction l generalizing i n with
  | nil => simp
  | cons x rest ih =>
    cases n with
    | zero => simp
    | succ k =>
      cases i with
      | zero => simp [hf]
      | succ j =>
        have := ih j k
        simp only [List.getD_eq_getElem?_getD] at this
        simp [this]

theorem stub_fix_dynamic_fixed (B : Build) (S : State) (stub : Nat) (alias_ : Option StubRef)
    (h : 0 ≤ (S.dynamic_stubs.getD stub default).slot) :
    stub_fix_dynamic B S stub alias_ = S := by
  simp only [stub_fix_dynamic, ge_iff_le, h, if_true]

theorem stub_fix_dynamic_null (B : Build) (S : State) (stub : Nat)
    (h : (S.dynamic_stubs.getD stub default).slot < 0) :
    stub_fix_dynamic B S stub none =
      { dynamic_stubs := S.dynamic_stubs.set stub
          { S.dynamic_stubs.getD stub default with slot := S.next_dynamic_slot }
        num_dynamic_stubs := S.num_dynamic_stubs
        next_dynamic_slot := S.next_dynamic_slot + 1
        entry_calls := S.entry_calls ++
          [EntryCall.patch (S.dynamic_stubs.getD stub default).addr S.next_dynamic_slot] } := by
  have : ¬ (0 ≤ (S.dynamic_stubs.getD stub default).slot) := by omega
  simp only [stub_fix_dynamic, ge_iff_le, this, if_false]

theorem stub_fix_dynamic_alias (B : Build) (S : State) (stub : Nat) (a : StubRef)
    (h : (S.dynamic_stubs.getD stub default).slot < 0) :
    stub_fix_dynamic B S stub (some a) =
      { dynamic_stubs := S.dynamic_stubs.set stub
          { S.dynamic_stubs.getD stub default with slot := (deref B S a).slot }
        num_dynamic_stubs := S.num_dynamic_stubs
        next_dynamic_slot := S.next_dynamic_slot
        entry_calls := S.entry_calls ++
          [EntryCall.patch (S.dynamic_stubs.getD stub default).addr (deref B S a).slot] } := by
  have : ¬ (0 ≤ (S.dynamic_stubs.getD stub default).slot) := by omega
  simp only [stub_fix_dynamic, ge_iff_le, this, if_false]

theorem stub_fix_dynamic_frame (B : Build) (S : State) (stub : Nat) (alias_ : Option StubRef) :
    (stub_fix_dynamic B S stub alias_).num_dynamic_stubs = S.num_dynamic_stubs ∧
      (stub_fix_dynamic B S stub alias_).dynamic_stubs.length = S.dynamic_stubs.length ∧
      S.next_dynamic_slot ≤ (stub_fix_dynamic B S stub alias_).next_dynamic_slot ∧
      ∀ {β : Type} (f : mapi_stub → β),
        (∀ (s : mapi_stub) (v : Int), f { s with slot := v } = f s) →
        (stub_fix_dynamic B S stub alias_).registered.map f = S.registered.map f := by
  rcases le_or_lt 0 (S.dynamic_stubs.getD stub default).slot with hfixed | hunfixed
  · rw [stub_fix_dynamic_fixed B S stub alias_ hfixed]
    exact ⟨rfl, rfl, le_refl _, fun _ _ => rfl⟩
  · cases alias_ with
    | none =>
      rw [stub_fix_dynamic_null B S stub hunfixed]
      refine ⟨rfl, by simp, by simp, ?_⟩
      intro β f hf
      exact map_take_set_slot f hf _ _ _ _
    | some a =>
      rw [stub_fix_dynamic_alias B S stub a hunfixed]
      refine ⟨rfl, by simp, by simp, ?_⟩
      intro β f hf
      exact map_take_set_slot f hf _ _ _ _

theorem stub_fix_dynamic_mem (B : Build) (S : State) (stub : Nat) (alias_ : Option StubRef)
    (x : mapi_stub) (hx : x ∈ (stub_fix_dynamic B S stub alias_).registered) :
    ∃ y ∈ S.registered, x.nameBuffer = y.nameBuffer ∧ x.addr = y.addr := by
  have hmap := (stub_fix_dynamic_frame B S stub alias_).2.2.2
    (fun s => (s.nameBuffer, s.addr)) (fun _ _ => rfl)
  have : (x.nameBuffer, x.addr) ∈
      (stub_fix_dynamic B S stub alias_).registered.map (fun s => (s.nameBuffer, s.addr)) :=
    List.mem_map.mpr ⟨x, hx, rfl⟩
  rw [hmap] at this
  obtain ⟨y, hy, hye⟩ := List.mem_map.mp this
  injection hye with h1 h2
  exact ⟨y, hy, h1.symm, h2.symm⟩

/-! ## Theorems: the invariant of the dynamic table -/

theorem inv_init (B : Build) : Inv B (State.init B) where
  length := by simp [State.init]
  num := Or.inl rfl
  names := by simp [State.init, State.registered]
  nodup := by simp [State.init, State.registered]
  guard := by simp [State.init, State.registered]
  addr := by simp [State.init, State.registered]
  next := by simp [State.init]

theorem inv_of_same (B : Build) (S S' : State) (hI : Inv B S)
    (hlen : S'.dynamic_stubs.length = S.dynamic_stubs.length)
    (hnum : S'.num_dynamic_stubs = S.num_dynamic_stubs)
    (hreg : S'.registered = S.registered)
    (hnext : S.next_dynamic_slot ≤ S'.next_dynamic_slot) : Inv B S' where
  length := by rw [hlen]; exact hI.length
  num := by rw [hnum]; exact hI.num
  names := by rw [hreg]; exact hI.names
  nodup := by rw [hreg]; exact hI.nodup
  guard := by rw [hreg]; exact hI.guard
  addr := by rw [hreg]; exact hI.addr
  next := le_trans hI.next hnext

theorem registered_add (B : Build) (S : State) (hI : Inv B S) (x : mapi_stub)
    (calls : List EntryCall)
    (hcap : (S.num_dynamic_stubs : Int) < (B.MAPI_TABLE_NUM_DYNAMIC : Int) - 1) :
    State.registered
        { dynamic_stubs := S.dynamic_stubs.set S.num_dynamic_stubs x
          num_dynamic_stubs := S.num_dynamic_stubs + 1
          next_dynamic_slot := S.next_dynamic_slot
          entry_calls := calls } = S.registered ++ [x] := by
  have hlen := hI.length
  exact take_succ_set _ _ _ (by omega)

theorem absent_of_first_index (S : State) (name : List Char)
    (h : first_index (name_matches name) S.registered 0 = none) :
    ∀ stub ∈ S.registered, stub.nameBuffer ≠ some name := by
  intro stub hmem hname
  have := (first_index_none _ _ _).mp h stub hmem
  rw [(name_matches_iff name stub).mpr hname] at this
  cases this

theorem inv_add (B : Build) (S : State) (hI : Inv B S) (name : List Char) (entry : Nat)
    (hcap : (S.num_dynamic_stubs : Int) < (B.MAPI_TABLE_NUM_DYNAMIC : Int) - 1)
    (he : entry ≠ 0) (hguard : stub_find_public B name = none)
    (habsent : ∀ stub ∈ S.registered, stub.nameBuffer ≠ some name) :
    Inv B (stub_add_dynamic B S name true entry).2 := by
  rw [stub_add_dynamic_some B S name entry hcap he]
  have hreg := registered_add B S hI
    { nameOffset := 0, slot := -1, addr := entry, nameBuffer := some name }
    (S.entry_calls ++ [EntryCall.generate (MAPI_LAST_SLOT B) entry]) hcap
  constructor
  · simpa using hI.length
  · right
    show S.num_dynamic_stubs + 1 + 1 ≤ B.MAPI_TABLE_NUM_DYNAMIC
    omega
  · rw [hreg]
    intro stub hmem
    rcases List.mem_append.mp hmem with h | h
    · exact hI.names stub h
    · simp only [List.mem_singleton] at h
      rw [h]
      simp
  · rw [hreg]
    simp only [List.map_append, List.map_cons, List.map_nil]
    rw [List.nodup_append]
    refine ⟨hI.nodup, List.nodup_singleton _, ?_⟩
    intro a ha hb
    simp only [List.mem_singleton] at hb
    obtain ⟨stub, hstub, hs⟩ := List.mem_map.mp ha
    exact habsent stub hstub (hs.trans hb)
  · rw [hreg]
    intro stub hmem n hn
    rcases List.mem_append.mp hmem with h | h
    · exact hI.guard stub h n hn
    · simp only [List.mem_singleton] at h
      rw [h] at hn
      injection hn with hn
      rw [← hn]
      exact hguard
  · rw [hreg]
    intro stub hmem
    rcases List.mem_append.mp hmem with h | h
    · exact hI.addr stub h
    · simp only [List.mem_singleton] at h
      rw [h]
      exact he
  · exact hI.next

theorem inv_find_dynamic (B : Build) (S S' : State) (hI : Inv B S) (name : List Char)
    (generate strdup_ok : Bool) (entry : Nat) (stub : Option Nat)
    (h : stub_find_dynamic B S name generate strdup_ok entry = .ok (stub, S')) : Inv B S' := by
  obtain ⟨hguard, hcase | ⟨hgen, habsent, hadd⟩⟩ := stub_find_dynamic_cases B S S' name _ _ _ _ h
  · rw [hcase.1]
    exact hI
  · have hS' : S' = (stub_add_dynamic B S name strdup_ok entry).2 := by rw [hadd]
    have hstub : stub = (stub_add_dynamic B S name strdup_ok entry).1 := by rw [hadd]
    cases hr : (stub_add_dynamic B S name strdup_ok entry).1 with
    | none =>
      obtain ⟨h1, h2, h3, h4⟩ := stub_add_dynamic_none B S name strdup_ok entry hr
      rw [hS']
      exact inv_of_same B S _ hI h4 h1 h3 (le_of_eq h2.symm)
    | some i =>
      have hnot := (stub_add_dynamic_none_iff B S name strdup_ok entry).not.mp (by simp [hr])
      simp only [not_or] at hnot
      obtain ⟨hcap, hok, he⟩ := hnot
      have hok' : strdup_ok = true := by simpa using hok
      subst hok'
      rw [hS']
      exact inv_add B S hI name entry (by omega) he (hguard hgen)
        (absent_of_first_index S name habsent)

theorem inv_fix_dynamic (B : Build) (S : State) (hI : Inv B S) (stub : Nat)
    (alias_ : Option StubRef) : Inv B (stub_fix_dynamic B S stub alias_) := by
  obtain ⟨hnum, hlen, hnext, hmap⟩ := stub_fix_dynamic_frame B S stub alias_
  constructor
  · rw [hlen]; exact hI.length
  · rw [hnum]; exact hI.num
  · intro x hx
    obtain ⟨y, hy, h1, _⟩ := stub_fix_dynamic_mem B S stub alias_ x hx
    rw [h1]
    exact hI.names y hy
  · rw [hmap (fun s => s.nameBuffer) (fun _ _ => rfl)]
    exact hI.nodup
  · intro x hx n hn
    obtain ⟨y, hy, h1, _⟩ := stub_fix_dynamic_mem B S stub alias_ x hx
    exact hI.guard y hy n (h1 ▸ hn)
  · intro x hx
    obtain ⟨y, hy, _, h2⟩ := stub_fix_dynamic_mem B S stub alias_ x hx
    rw [h2]
    exact hI.addr y hy
  · exact le_trans hI.next hnext

theorem inv_cleanup (B : Build) (S : State) (hI : Inv B S) :
    Inv B (stub_cleanup_dynamic B S) where
  length := by simp [stub_cleanup_dynamic, length_free_names, hI.length]
  num := Or.inl rfl
  names := by simp [stub_cleanup_dynamic, State.registered]
  nodup := by simp [stub_cleanup_dynamic, State.registered]
  guard := by simp [stub_cleanup_dynamic, State.registered]
  addr := by simp [stub_cleanup_dynamic, State.registered]
  next := by simp [stub_cleanup_dynamic]

theorem inv_step (B : Build) (S S' : State) (hI : Inv B S) (h : Step B S S') : Inv B S' := by
  cases h with
  | find_dynamic name generate strdup_ok entry stub h =>
    exact inv_find_dynamic B S S' hI name generate strdup_ok entry stub h
  | fix_dynamic stub alias_ _ _ => exact inv_fix_dynamic B S hI stub alias_
  | restore_funcs h =>
    obtain ⟨h1, h2, h3⟩ := stubRestoreFuncs_frame B S S' h
    exact inv_of_same B S S' hI (by rw [h1]) h2 (by simp [State.registered, h1, h2])
      (le_of_eq h3.symm)
  | cleanup_dynamic => exact inv_cleanup B S hI

theorem reachable_inv (B : Build) (S : State) (h : Reachable B S) : Inv B S := by
  induction h with
  | init => exact inv_init B
  | step _ hstep ih => exact inv_step B _ _ ih hstep

theorem reg_reachable_reachable (B : Build) (S : State) (h : RegReachable B S) :
    Reachable B S := by
  induction h with
  | init => exact Reachable.init
  | @step S S' _ hstep ih =>
    refine Reachable.step ih ?_
    have hI := reachable_inv B S ih
    cases hstep with
    | find_dynamic name generate strdup_ok entry stub h =>
      exact Step.find_dynamic name generate strdup_ok entry stub h
    | fix_dynamic stub alias_ hstub halias =>
      refine Step.fix_dynamic stub alias_ ?_ ?_
      · rcases hI.num with h | h <;> omega
      · intro a ha
        have := halias a ha
        cases a with
        | static i => exact this
        | dynamic i =>
          simp only [StubRef.in_registry] at this
          simp only [StubRef.in_table]
          rcases hI.num with h | h <;> omega
    | restore_funcs h => exact Step.restore_funcs h
    | cleanup_dynamic => exact Step.cleanup_dynamic

/-! ## Theorems: reachable states of the scenario -/

theorem reachable_scenario_one : Reachable scenario scenario_one :=
  Reachable.step Reachable.init
    (Step.find_dynamic "FooBarEXT".toList true true 8192 (some 0) (by decide))

theorem reachable_scenario_two : Reachable scenario scenario_two :=
  Reachable.step reachable_scenario_one
    (Step.find_dynamic "BazEXT".toList true true 8208 (some 1) (by decide))

theorem reachable_scenario_three : Reachable scenario scenario_three :=
  Reachable.step reachable_scenario_two
    (Step.find_dynamic "QuxEXT".toList true true 8224 (some 2) (by decide))

theorem reachable_gl_named_one : Reachable gl_named gl_named_one :=
  Reachable.step Reachable.init
    (Step.find_dynamic "glow".toList true true 8192 (some 0) (by decide))

theorem reg_reachable_scenario_one : RegReachable scenario scenario_one :=
  RegReachable.step RegReachable.init
    (RegStep.find_dynamic "FooBarEXT".toList true true 8192 (some 0) (by decide))

theorem reg_reachable_scenario_two : RegReachable scenario scenario_two :=
  RegReachable.step reg_reachable_scenario_one
    (RegStep.find_dynamic "BazEXT".toList true true 8208 (some 1) (by decide))

/-! ## Theorems: registration of dynamic stubs -/

theorem stub_find_dynamic_found (B : Build) (S : State) (name : List Char)
    (generate strdup_ok : Bool) (entry i : Nat)
    (hguard : generate = true → stub_find_public B name = none)
    (hf : first_index (name_matches name) S.registered 0 = some i) :
    stub_find_dynamic B S name generate strdup_ok entry = .ok (some i, S) := by
  have hf' : first_index (name_matches name) (List.take S.num_dynamic_stubs S.dynamic_stubs) 0
      = some i := hf
  cases generate with
  | false => simp [stub_find_dynamic, hf']
  | true => simp [stub_find_dynamic, hguard rfl, hf']

theorem stub_find_dynamic_absent (B : Build) (S : State) (name : List Char)
    (strdup_ok : Bool) (entry : Nat) (hguard : stub_find_public B name = none)
    (hf : first_index (name_matches name) S.registered 0 = none) :
    stub_find_dynamic B S name true strdup_ok entry
      = .ok (stub_add_dynamic B S name strdup_ok entry) := by
  have hf' : first_index (name_matches name) (List.take S.num_dynamic_stubs S.dynamic_stubs) 0
      = none := hf
  simp [stub_find_dynamic, hguard, hf']

theorem first_index_of_absent (S : State) (name : List Char)
    (h : ∀ stub ∈ S.registered, stub.nameBuffer ≠ some name) :
    first_index (name_matches name) S.registered 0 = none := by
  apply (first_index_none _ _ _).mpr
  intro x hx
  cases hm : name_matches name x with
  | false => rfl
  | true => exact absurd ((name_matches_iff name x).mp hm) (h x hx)

theorem length_registered (B : Build) (S : State) (hI : Inv B S) :
    S.registered.length = S.num_dynamic_stubs := by
  unfold State.registered
  rw [List.length_take, hI.length]
  rcases hI.num with h | h <;> omega

/-- C2: in a reachable state, when `stub_find_dynamic(name, 1)` returns a
stub, the same call made again right after it, whatever `strdup` and
`entry_generate` would return, returns the same stub and leaves the whole
state (table, counters, calls to the entry backend) as it is. -/
theorem stub_find_dynamic_idempotent (B : Build) (S S' : State) (hS : Reachable B S)
    (name : List Char) (strdup_ok : Bool) (entry i : Nat)
    (h : stub_find_dynamic B S name true strdup_ok entry = .ok (some i, S')) :
    ∀ (strdup_ok' : Bool) (entry' : Nat),
      stub_find_dynamic B S' name true strdup_ok' entry' = .ok (some i, S') := by
  intro ok' entry'
  have hI := reachable_inv B S hS
  obtain ⟨hguard, hcase | ⟨_, habsent, hadd⟩⟩ := stub_find_dynamic_cases B S S' name _ _ _ _ h
  · obtain ⟨hS', hfound, _⟩ := hcase
    rw [hS']
    exact stub_find_dynamic_found B S name true ok' entry' i hguard hfound.symm
  · have hnot := (stub_add_dynamic_none_iff B S name strdup_ok entry).not.mp (by simp [hadd])
    simp only [not_or] at hnot
    obtain ⟨hcap, hok, he⟩ := hnot
    have hok' : strdup_ok = true := by simpa using hok
    subst hok'
    rw [stub_add_dynamic_some B S name entry (by omega) he] at hadd
    injection hadd with h1 h2
    injection h1 with h1
    apply stub_find_dynamic_found B S' name true ok' entry' i hguard
    rw [← h2, registered_add B S hI _ _ (by omega), first_index_append, habsent]
    simp only [first_index, Nat.zero_add]
    rw [if_pos ((name_matches_iff name _).mpr rfl), length_registered B S hI, h1]

/-- C2, on the scenario: `FooBarEXT` is registered as stub 0 from the initial
state, and the second call returns stub 0 and the same state. -/
theorem stub_find_dynamic_idempotent_witness :
    Reachable scenario (State.init scenario) ∧
      stub_find_dynamic scenario (State.init scenario) "FooBarEXT".toList true true 8192
        = .ok (some 0, scenario_one) ∧
      stub_find_dynamic scenario scenario_one "FooBarEXT".toList true false 0
        = .ok (some 0, scenario_one) :=
  ⟨Reachable.init, by decide,
    stub_find_dynamic_idempotent scenario (State.init scenario) scenario_one Reachable.init
      "FooBarEXT".toList true 8192 0 (by decide) false 0⟩

/-- C4: in a reachable state, for a name that passes the guard and is not in
the dynamic table, `stub_find_dynamic(name, 1)` returns, and it returns no
stub exactly when the table already holds `MAPI_TABLE_NUM_DYNAMIC - 1` stubs,
or `strdup` fails, or `entry_generate` fails; when it returns no stub, the
number of registered stubs, the registered stubs and the slot counter are
unchanged. -/
theorem stub_find_dynamic_fails_iff (B : Build) (S : State) (hS : Reachable B S)
    (hdyn : 0 < B.MAPI_TABLE_NUM_DYNAMIC) (name : List Char)
    (hguard : stub_find_public B name = none)
    (habsent : ∀ stub ∈ S.registered, stub.nameBuffer ≠ some name)
    (strdup_ok : Bool) (entry : Nat) :
    ∃ (stub : Option Nat) (S' : State),
      stub_find_dynamic B S name true strdup_ok entry = .ok (stub, S') ∧
      (stub = none ↔
        ((S.num_dynamic_stubs : Int) = (B.MAPI_TABLE_NUM_DYNAMIC : Int) - 1 ∨
          strdup_ok = false ∨ entry = 0)) ∧
      (stub = none → S'.num_dynamic_stubs = S.num_dynamic_stubs ∧
        S'.registered = S.registered ∧ S'.next_dynamic_slot = S.next_dynamic_slot) := by
  have hI := reachable_inv B S hS
  refine ⟨(stub_add_dynamic B S name strdup_ok entry).1,
    (stub_add_dynamic B S name strdup_ok entry).2,
    stub_find_dynamic_absent B S name strdup_ok entry hguard
      (first_index_of_absent S name habsent), ?_, ?_⟩
  · rw [stub_add_dynamic_none_iff]
    have hnum : (S.num_dynamic_stubs : Int) ≤ (B.MAPI_TABLE_NUM_DYNAMIC : Int) - 1 := by
      rcases hI.num with h | h <;> omega
    constructor
    · rintro (h | h | h)
      · exact Or.inl (by omega)
      · exact Or.inr (Or.inl h)
      · exact Or.inr (Or.inr h)
    · rintro (h | h | h)
      · exact Or.inl (by omega)
      · exact Or.inr (Or.inl h)
      · exact Or.inr (Or.inr h)
  · intro hnone
    obtain ⟨h1, h2, h3, _⟩ := stub_add_dynamic_none B S name strdup_ok entry hnone
    exact ⟨h1, h3, h2⟩

/-- C4, on the scenario: the table has capacity 4 and holds 3 names; the
registration of a fourth name returns no stub although `strdup` and
`entry_generate` succeed, and the table still holds 3 stubs. -/
theorem stub_find_dynamic_fails_iff_witness :
    scenario.MAPI_TABLE_NUM_DYNAMIC = 4 ∧ scenario_three.num_dynamic_stubs = 3 ∧
      stub_find_dynamic scenario scenario_three "QuuxEXT".toList true true 8240
        = .ok (none, scenario_three) ∧
      ∃ (stub : Option Nat) (S' : State),
        stub_find_dynamic scenario scenario_three "QuuxEXT".toList true true 8240
          = .ok (stub, S') ∧
        (stub = none ↔
          ((scenario_three.num_dynamic_stubs : Int)
              = (scenario.MAPI_TABLE_NUM_DYNAMIC : Int) - 1 ∨ true = false ∨ 8240 = 0)) ∧
        (stub = none → S'.num_dynamic_stubs = scenario_three.num_dynamic_stubs ∧
          S'.registered = scenario_three.registered ∧
          S'.next_dynamic_slot = scenario_three.next_dynamic_slot) :=
  ⟨by decide, by decide, by decide,
    stub_find_dynamic_fails_iff scenario scenario_three reachable_scenario_three (by decide)
      "QuuxEXT".toList (by decide) (by decide) true 8240⟩

/-- C5: in a reachable state, for a name that passes the guard and is not in
the dynamic table, when the table has room and `strdup` and `entry_generate`
succeed, `stub_find_dynamic(name, 1)` returns the stub at index
`num_dynamic_stubs`; that stub has the given name, slot `-1` and the address
returned by the one call `entry_generate(MAPI_LAST_SLOT)`, which is not null;
the table grows by exactly that stub, the stubs registered before are
unchanged and `next_dynamic_slot` is unchanged. -/
theorem stub_find_dynamic_creates (B : Build) (S : State) (hS : Reachable B S)
    (name : List Char) (hguard : stub_find_public B name = none)
    (habsent : ∀ stub ∈ S.registered, stub.nameBuffer ≠ some name)
    (hcap : (S.num_dynamic_stubs : Int) < (B.MAPI_TABLE_NUM_DYNAMIC : Int) - 1)
    (entry : Nat) (he : entry ≠ 0) :
    ∃ S' : State,
      stub_find_dynamic B S name true true entry = .ok (some S.num_dynamic_stubs, S') ∧
      S'.dynamic_stubs[S.num_dynamic_stubs]?
        = some { nameOffset := 0, slot := -1, addr := entry, nameBuffer := some name } ∧
      S'.num_dynamic_stubs = S.num_dynamic_stubs + 1 ∧
      S'.registered = S.registered ++
        [{ nameOffset := 0, slot := -1, addr := entry, nameBuffer := some name }] ∧
      S'.next_dynamic_slot = S.next_dynamic_slot ∧
      S'.entry_calls = S.entry_calls ++ [EntryCall.generate (MAPI_LAST_SLOT B) entry] := by
  have hI := reachable_inv B S hS
  have hlen := hI.length
  refine ⟨_, (stub_find_dynamic_absent B S name true entry hguard
    (first_index_of_absent S name habsent)).trans
      (congrArg Except.ok (stub_add_dynamic_some B S name entry hcap he)), ?_, rfl,
    registered_add B S hI _ _ hcap, rfl, rfl⟩
  exact List.getElem?_set_self (by omega)

/-- C5, on the scenario: the registration of `FooBarEXT` in the initial state
creates stub 0 with slot `-1` and the address 8192 of the generated entry. -/
theorem stub_find_dynamic_creates_witness :
    (scenario_one.dynamic_stubs.getD 0 default).slot = -1 ∧
      (scenario_one.dynamic_stubs.getD 0 default).addr = 8192 ∧
      ∃ S' : State,
        stub_find_dynamic scenario (State.init scenario) "FooBarEXT".toList true true 8192
          = .ok (some (State.init scenario).num_dynamic_stubs, S') ∧
        S'.dynamic_stubs[(State.init scenario).num_dynamic_stubs]?
          = some { nameOffset := 0, slot := -1, addr := 8192,
                   nameBuffer := some "FooBarEXT".toList } ∧
        S'.num_dynamic_stubs = (State.init scenario).num_dynamic_stubs + 1 ∧
        S'.registered = (State.init scenario).registered ++
          [{ nameOffset := 0, slot := -1, addr := 8192,
             nameBuffer := some "FooBarEXT".toList }] ∧
        S'.next_dynamic_slot = (State.init scenario).next_dynamic_slot ∧
        S'.entry_calls = (State.init scenario).entry_calls ++
          [EntryCall.generate (MAPI_LAST_SLOT scenario) 8192] :=
  ⟨by decide, by decide,
    stub_find_dynamic_creates scenario (State.init scenario) Reachable.init
      "FooBarEXT".toList (by decide) (by decide) (by decide) 8192 (by decide)⟩

/-- C6: in every reachable state any two registered dynamic stubs, at
indices `i < j < num_dynamic_stubs`, have names, and `strcmp` tells the two
names apart. -/
theorem dynamic_names_distinct (B : Build) (S : State) (hS : Reachable B S) :
    ∀ (i j : Nat) (si sj : mapi_stub), i < j → j < S.num_dynamic_stubs →
      S.dynamic_stubs[i]? = some si → S.dynamic_stubs[j]? = some sj →
      ∃ ni nj : List Char, si.nameBuffer = some ni ∧ sj.nameBuffer = some nj ∧
        strcmp ni nj ≠ 0 := by
  intro i j si sj hij hj hsi hsj
  have hI := reachable_inv B S hS
  have hi_mem : si ∈ S.registered := (mem_registered_iff S si).mpr ⟨i, by omega, hsi⟩
  have hj_mem : sj ∈ S.registered := (mem_registered_iff S sj).mpr ⟨j, hj, hsj⟩
  cases hni : si.nameBuffer with
  | none => exact absurd hni (hI.names si hi_mem)
  | some ni =>
    cases hnj : sj.nameBuffer with
    | none => exact absurd hnj (hI.names sj hj_mem)
    | some nj =>
      refine ⟨ni, nj, rfl, rfl, ?_⟩
      intro hcmp
      have hne := List.nodup_iff_getElem?_ne_getElem?.mp hI.nodup i j hij
        (by rw [List.length_map, length_registered B S hI]; exact hj)
      apply hne
      have hri : S.registered[i]? = some si := by
        unfold State.registered
        rw [List.getElem?_take_of_lt (by omega)]
        exact hsi
      have hrj : S.registered[j]? = some sj := by
        unfold State.registered
        rw [List.getElem?_take_of_lt hj]
        exact hsj
      rw [List.getElem?_map, List.getElem?_map, hri, hrj]
      simp only [Option.map_some']
      rw [hni, hnj, strcmp_eq_zero hcmp]

/-- C6, on the scenario with three registered names: the names of the stubs
0 and 2 differ. -/
theorem dynamic_names_distinct_witness :
    ∃ ni nj : List Char,
      (scenario_three.dynamic_stubs.getD 0 default).nameBuffer = some ni ∧
      (scenario_three.dynamic_stubs.getD 2 default).nameBuffer = some nj ∧
      strcmp ni nj ≠ 0 :=
  dynamic_names_distinct scenario scenario_three reachable_scenario_three 0 2
    (scenario_three.dynamic_stubs.getD 0 default) (scenario_three.dynamic_stubs.getD 2 default)
    (by decide) (by decide) (by decide) (by decide)

/-- C7: in every reachable state `num_dynamic_stubs <= MAPI_TABLE_NUM_DYNAMIC - 1`
(the array `dynamic_stubs` has at least one element, as every C array). -/
theorem num_dynamic_stubs_le (B : Build) (S : State) (hS : Reachable B S)
    (hdyn : 0 < B.MAPI_TABLE_NUM_DYNAMIC) :
    (S.num_dynamic_stubs : Int) ≤ (B.MAPI_TABLE_NUM_DYNAMIC : Int) - 1 := by
  rcases (reachable_inv B S hS).num with h | h <;> omega

/-- C7, on the scenario with three registered names and capacity 4. -/
theorem num_dynamic_stubs_le_witness :
    scenario_three.num_dynamic_stubs = 3 ∧
      (scenario_three.num_dynamic_stubs : Int) ≤ (scenario.MAPI_TABLE_NUM_DYNAMIC : Int) - 1 :=
  ⟨by decide, num_dynamic_stubs_le scenario scenario_three reachable_scenario_three (by decide)⟩

/-- C8, as stated, fails on a sorted static table with a name that begins
with `gl`: in `gl_named` the name `glow` passes the guard
`assert(!stub_find_public(name))`, is registered as a dynamic stub, and is
the name of the static stub 1. -/
theorem dynamic_name_is_static :
    public_sorted gl_named ∧ Reachable gl_named gl_named_one ∧
      stub_find_public gl_named "glow".toList = none ∧
      (∃ stub ∈ gl_named_one.registered, ∃ p ∈ gl_named.public_stubs,
        stub.nameBuffer = some (public_name gl_named p)) :=
  ⟨by decide, reachable_gl_named_one, by decide, by decide⟩

/-- C8 (amended): for every sorted static table and every reachable state,
the name of a registered dynamic stub, once its `gl` prefix is skipped, is
the name of no static stub; so a registered dynamic name that does not begin
with `gl` is the name of no static stub. -/
theorem dynamic_name_not_static (B : Build) (hs : public_sorted B) (S : State)
    (hS : Reachable B S) :
    ∀ stub ∈ S.registered, ∀ n : List Char, stub.nameBuffer = some n →
      ∀ p ∈ B.public_stubs, public_name B p ≠ skip_gl n ∧
        ((∀ rest, n ≠ 'g' :: 'l' :: rest) → public_name B p ≠ n) := by
  intro stub hstub n hn p hp
  have hI := reachable_inv B S hS
  have hnone := hI.guard stub hstub n hn
  rw [stub_find_public_eq_scan B hs] at hnone
  have hne : public_name B p ≠ skip_gl n := by
    have := (first_index_none _ _ _).mp hnone p hp
    simpa using this
  refine ⟨hne, ?_⟩
  intro hgl
  have : skip_gl n = n := by
    unfold skip_gl
    split
    · exact absurd rfl (hgl _)
    · rfl
  rw [← this]
  exact hne

/-- C8, on the scenario: the registered name `FooBarEXT` is not the static
name `Clear`. -/
theorem dynamic_name_not_static_witness :
    public_sorted scenario ∧
      public_name scenario (scenario.public_stubs.getD 2 default)
        ≠ skip_gl "FooBarEXT".toList :=
  ⟨by decide,
    (dynamic_name_not_static scenario (by decide) scenario_one reachable_scenario_one
      (scenario_one.dynamic_stubs.getD 0 default) (by decide) "FooBarEXT".toList (by decide)
      (scenario.public_stubs.getD 2 default) (by decide)).1⟩

/-! ## Theorems: fixing the slot of a dynamic stub -/

/-- C9: on a stub whose slot is already `>= 0`, `stub_fix_dynamic`, with any
alias or none, returns the state it got: the slot of the stub, the counter
`next_dynamic_slot`, every other stub and the list of calls to the entry
backend are unchanged (`entry_patch` is not called). -/
theorem stub_fix_dynamic_noop (B : Build) (S : State) (stub : Nat)
    (alias_ : Option StubRef) (h : 0 ≤ (S.dynamic_stubs.getD stub default).slot) :
    stub_fix_dynamic B S stub alias_ = S ∧
      (stub_fix_dynamic B S stub alias_).entry_calls = S.entry_calls := by
  rw [stub_fix_dynamic_fixed B S stub alias_ h]
  exact ⟨rfl, rfl⟩

/-- C9, on the scenario: stub 0 has been given slot 3; fixing it again, with
the static stub `BindBuffer` as alias, changes nothing. -/
theorem stub_fix_dynamic_noop_witness :
    (scenario_fixed.dynamic_stubs.getD 0 default).slot = 3 ∧
      stub_fix_dynamic scenario scenario_fixed 0 (some (StubRef.static 1)) = scenario_fixed ∧
      (stub_fix_dynamic scenario scenario_fixed 0 (some (StubRef.static 1))).entry_calls
        = scenario_fixed.entry_calls :=
  ⟨by decide,
    stub_fix_dynamic_noop scenario scenario_fixed 0 (some (StubRef.static 1)) (by decide)⟩

theorem getD_registered (B : Build) (S : State) (hI : Inv B S) (j : Nat)
    (hj : j < S.num_dynamic_stubs) :
    S.dynamic_stubs[j]? = some (S.dynamic_stubs.getD j default) ∧
      S.dynamic_stubs.getD j default ∈ S.registered := by
  have hlen : j < S.dynamic_stubs.length := by
    have := hI.length
    rcases hI.num with h | h <;> omega
  have h : S.dynamic_stubs[j]? = some (S.dynamic_stubs.getD j default) := by
    rw [List.getD_eq_getElem?_getD, List.getElem?_eq_getElem hlen]
    rfl
  exact ⟨h, (mem_registered_iff S _).mpr ⟨j, hj, h⟩⟩

theorem mem_registered_set (S : State) (i : Nat) (x y : mapi_stub) (next : Int)
    (calls : List EntryCall)
    (h : y ∈ State.registered
      { dynamic_stubs := S.dynamic_stubs.set i x
        num_dynamic_stubs := S.num_dynamic_stubs
        next_dynamic_slot := next
        entry_calls := calls }) :
    y = x ∨ ∃ j, j ≠ i ∧ j < S.num_dynamic_stubs ∧ S.dynamic_stubs[j]? = some y := by
  obtain ⟨j, hj, hje⟩ := (mem_registered_iff _ y).mp h
  simp only at hj hje
  rw [List.getElem?_set] at hje
  split_ifs at hje with h1 h2
  · left
    injection hje with hje
    exact hje.symm
  · right
    exact ⟨j, fun hji => h1 hji.symm, hj, hje⟩

theorem reg_inv_fix_dynamic (B : Build) (S : State) (hI : Inv B S) (hR : RegInv B S)
    (hstatic : ∀ p ∈ B.public_stubs, p.slot < (B.MAPI_TABLE_NUM_STATIC : Int))
    (stub : Nat) (alias_ : Option StubRef) (hreg : stub < S.num_dynamic_stubs)
    (halias : ∀ a, alias_ = some a → a.in_registry B S) :
    RegInv B (stub_fix_dynamic B S stub alias_) := by
  rcases le_or_lt 0 (S.dynamic_stubs.getD stub default).slot with hfixed | hunfixed
  · rw [stub_fix_dynamic_fixed B S stub alias_ hfixed]
    exact hR
  · have hnext := hI.next
    obtain ⟨hget, _⟩ := getD_registered B S hI stub hreg
    have hlen : stub < S.dynamic_stubs.length := (List.getElem?_eq_some.mp hget).1
    cases alias_ with
    | none =>
      rw [stub_fix_dynamic_null B S stub hunfixed]
      constructor
      · intro y hy
        rcases mem_registered_set S stub _ y _ _ hy with h | ⟨j, _, hj, hje⟩
        · rw [h]
          show S.next_dynamic_slot < S.next_dynamic_slot + 1
          omega
        · have := hR.below y ((mem_registered_iff S y).mpr ⟨j, hj, hje⟩)
          show y.slot < S.next_dynamic_slot + 1
          omega
      · right
        refine ⟨{ S.dynamic_stubs.getD stub default with slot := S.next_dynamic_slot }, ?_, hnext⟩
        exact (mem_registered_iff _ _).mpr ⟨stub, hreg, List.getElem?_set_self hlen⟩
    | some a =>
      rw [stub_fix_dynamic_alias B S stub a hunfixed]
      have ha : (deref B S a).slot < S.next_dynamic_slot := by
        have hin := halias a rfl
        cases a with
        | static k =>
          simp only [StubRef.in_registry] at hin
          have hmem : B.public_stubs.getD k default ∈ B.public_stubs := by
            rw [List.getD_eq_getElem?_getD, List.getElem?_eq_getElem hin]
            exact List.getElem_mem hin
          have := hstatic _ hmem
          show (B.public_stubs.getD k default).slot < S.next_dynamic_slot
          omega
        | dynamic k =>
          simp only [StubRef.in_registry] at hin
          exact hR.below _ (getD_registered B S hI k hin).2
      constructor
      · intro y hy
        rcases mem_registered_set S stub _ y _ _ hy with h | ⟨j, _, hj, hje⟩
        · rw [h]
          exact ha
        · exact hR.below y ((mem_registered_iff S y).mpr ⟨j, hj, hje⟩)
      · rcases hR.first with h | ⟨y, hy, hys⟩
        · exact Or.inl h
        · right
          obtain ⟨k, hk, hke⟩ := (mem_registered_iff S y).mp hy
          have hne : stub ≠ k := by
            intro hsk
            rw [← hsk, hget] at hke
            injection hke with hke
            rw [hke] at hunfixed
            omega
          refine ⟨y, (mem_registered_iff _ _).mpr ⟨k, hk, ?_⟩, hys⟩
          show (S.dynamic_stubs.set stub _)[k]? = some y
          rw [List.getElem?_set_ne hne]
          exact hke

theorem reg_inv_of_same (B : Build) (S S' : State) (hR : RegInv B S)
    (hreg : S'.registered = S.registered)
    (hnext : S'.next_dynamic_slot = S.next_dynamic_slot) : RegInv B S' where
  below := by rw [hreg, hnext]; exact hR.below
  first := by rw [hreg, hnext]; exact hR.first

theorem reg_inv_find_dynamic (B : Build) (S S' : State) (hI : Inv B S) (hR : RegInv B S)
    (name : List Char) (generate strdup_ok : Bool) (entry : Nat) (stub : Option Nat)
    (h : stub_find_dynamic B S name generate strdup_ok entry = .ok (stub, S')) :
    RegInv B S' := by
  obtain ⟨_, hcase | ⟨_, _, hadd⟩⟩ := stub_find_dynamic_cases B S S' name _ _ _ _ h
  · rw [hcase.1]
    exact hR
  · have hS' : S' = (stub_add_dynamic B S name strdup_ok entry).2 := by rw [hadd]
    cases hr : (stub_add_dynamic B S name strdup_ok entry).1 with
    | none =>
      obtain ⟨_, h2, h3, _⟩ := stub_add_dynamic_none B S name strdup_ok entry hr
      rw [hS']
      exact reg_inv_of_same B S _ hR h3 h2
    | some i =>
      have hnot := (stub_add_dynamic_none_iff B S name strdup_ok entry).not.mp (by simp [hr])
      simp only [not_or] at hnot
      obtain ⟨hcap, hok, he⟩ := hnot
      have hok' : strdup_ok = true := by simpa using hok
      subst hok'
      rw [hS', stub_add_dynamic_some B S name entry (by omega) he]
      have hreg := registered_add B S hI
        { nameOffset := 0, slot := -1, addr := entry, nameBuffer := some name }
        (S.entry_calls ++ [EntryCall.generate (MAPI_LAST_SLOT B) entry]) (by omega)
      have hnext := hI.next
      constructor
      · rw [hreg]
        intro y hy
        rcases List.mem_append.mp hy with h | h
        · exact hR.below y h
        · simp only [List.mem_singleton] at h
          rw [h]
          show (-1 : Int) < S.next_dynamic_slot
          omega
      · rcases hR.first with h | ⟨y, hy, hys⟩
        · exact Or.inl h
        · right
          rw [hreg]
          exact ⟨y, List.mem_append.mpr (Or.inl hy), hys⟩

theorem reg_reachable_reg_inv (B : Build) (S : State) (h : RegReachable B S)
    (hstatic : ∀ p ∈ B.public_stubs, p.slot < (B.MAPI_TABLE_NUM_STATIC : Int)) :
    RegInv B S := by
  induction h with
  | init =>
    constructor
    · simp [State.init, State.registered]
    · exact Or.inl rfl
  | @step S S' hreach hstep ih =>
    have hI := reachable_inv B S (reg_reachable_reachable B S hreach)
    cases hstep with
    | find_dynamic name generate strdup_ok entry stub h =>
      exact reg_inv_find_dynamic B S S' hI ih name generate strdup_ok entry stub h
    | fix_dynamic stub alias_ hstub halias =>
      exact reg_inv_fix_dynamic B S hI ih hstatic stub alias_ hstub halias
    | restore_funcs h =>
      obtain ⟨h1, h2, h3⟩ := stubRestoreFuncs_frame B S S' h
      exact reg_inv_of_same B S S' ih (by simp [State.registered, h1, h2]) h3
    | cleanup_dynamic =>
      constructor
      · simp [stub_cleanup_dynamic, State.registered]
      · exact Or.inl rfl

theorem getD_set_self_slot (l : List mapi_stub) (i : Nat) (x : mapi_stub)
    (h : i < l.length) : (l.set i x).getD i default = x := by
  rw [List.getD_eq_getElem?_getD, List.getElem?_set_self h]
  rfl

theorem getD_set_ne_slot (l : List mapi_stub) (i j : Nat) (x : mapi_stub) (h : i ≠ j) :
    (l.set i x).getD j default = l.getD j default := by
  rw [List.getD_eq_getElem?_getD, List.getElem?_set_ne h, List.getD_eq_getElem?_getD]

/-- C3: in a state reached by calls that give `stub_fix_dynamic` only stubs of
the registry, with every static slot below `MAPI_TABLE_NUM_STATIC`, for an
unfixed registered dynamic stub: `stub_fix_dynamic(stub, NULL)` gives it the
slot `next_dynamic_slot` had before the call and increments the counter; that
slot is the slot of no static stub and of no other registered dynamic stub;
it is `MAPI_TABLE_NUM_STATIC` when no registered stub holds a slot from
`MAPI_TABLE_NUM_STATIC` on yet.  `stub_fix_dynamic(stub, alias)` gives it
exactly the slot of the alias and leaves `next_dynamic_slot` unchanged. -/
theorem stub_fix_dynamic_slot (B : Build) (S : State) (hS : RegReachable B S)
    (hstatic : ∀ p ∈ B.public_stubs, p.slot < (B.MAPI_TABLE_NUM_STATIC : Int))
    (stub : Nat) (hreg : stub < S.num_dynamic_stubs)
    (hunfixed : (S.dynamic_stubs.getD stub default).slot < 0) :
    ((stub_fix_dynamic B S stub none).dynamic_stubs.getD stub default).slot
        = S.next_dynamic_slot ∧
      (stub_fix_dynamic B S stub none).next_dynamic_slot = S.next_dynamic_slot + 1 ∧
      (∀ p ∈ B.public_stubs, p.slot ≠ S.next_dynamic_slot) ∧
      (∀ j, j < S.num_dynamic_stubs → j ≠ stub →
        ((stub_fix_dynamic B S stub none).dynamic_stubs.getD j default).slot
          ≠ S.next_dynamic_slot) ∧
      ((∀ x ∈ S.registered, x.slot < (B.MAPI_TABLE_NUM_STATIC : Int)) →
        S.next_dynamic_slot = B.MAPI_TABLE_NUM_STATIC) ∧
      (∀ a : StubRef,
        ((stub_fix_dynamic B S stub (some a)).dynamic_stubs.getD stub default).slot
            = (deref B S a).slot ∧
          (deref B (stub_fix_dynamic B S stub (some a)) a).slot = (deref B S a).slot ∧
          (stub_fix_dynamic B S stub (some a)).next_dynamic_slot = S.next_dynamic_slot) := by
  have hI := reachable_inv B S (reg_reachable_reachable B S hS)
  have hR := reg_reachable_reg_inv B S hS hstatic
  have hnext := hI.next
  obtain ⟨hget, _⟩ := getD_registered B S hI stub hreg
  have hlen : stub < S.dynamic_stubs.length := (List.getElem?_eq_some.mp hget).1
  refine ⟨?_, ?_, ?_, ?_, ?_, ?_⟩
  · rw [stub_fix_dynamic_null B S stub hunfixed]
    show ((S.dynamic_stubs.set stub _).getD stub default).slot = _
    rw [getD_set_self_slot _ _ _ hlen]
  · rw [stub_fix_dynamic_null B S stub hunfixed]
  · intro p hp heq
    have := hstatic p hp
    omega
  · intro j hj hne
    rw [stub_fix_dynamic_null B S stub hunfixed]
    show ((S.dynamic_stubs.set stub _).getD j default).slot ≠ _
    rw [getD_set_ne_slot _ _ _ _ (fun h => hne h.symm)]
    have := hR.below _ (getD_registered B S hI j hj).2
    omega
  · intro hall
    rcases hR.first with h | ⟨y, hy, hys⟩
    · exact h
    · have := hall y hy
      omega
  · intro a
    rw [stub_fix_dynamic_alias B S stub a hunfixed]
    refine ⟨?_, ?_, rfl⟩
    · show ((S.dynamic_stubs.set stub _).getD stub default).slot = _
      rw [getD_set_self_slot _ _ _ hlen]
    · cases a with
      | static k => rfl
      | dynamic k =>
        show ((S.dynamic_stubs.set stub _).getD k default).slot = (S.dynamic_stubs.getD k default).slot
        by_cases hk : stub = k
        · subst hk
          rw [getD_set_self_slot _ _ _ hlen]
          rfl
        · rw [getD_set_ne_slot _ _ _ _ hk]

/-- C3, on the scenario with `FooBarEXT` and `BazEXT` registered and unfixed,
`MAPI_TABLE_NUM_STATIC = 3`: `stub_fix_dynamic(FooBarEXT, NULL)` gives the
slot 3, and `stub_fix_dynamic(FooBarEXT, BindBuffer)` gives the slot 1. -/
theorem stub_fix_dynamic_slot_witness :
    ((stub_fix_dynamic scenario scenario_two 0 none).dynamic_stubs.getD 0 default).slot = 3 ∧
      ((stub_fix_dynamic scenario scenario_two 0 (some (StubRef.static 1))).dynamic_stubs.getD
        0 default).slot = 1 ∧
      (stub_fix_dynamic scenario scenario_two 0 (some (StubRef.static 1))).next_dynamic_slot
        = scenario_two.next_dynamic_slot :=
  ⟨(stub_fix_dynamic_slot scenario scenario_two reg_reachable_scenario_two (by decide) 0
      (by decide) (by decide)).1.trans (by decide),
    ((stub_fix_dynamic_slot scenario scenario_two reg_reachable_scenario_two (by decide) 0
      (by decide) (by decide)).2.2.2.2.2 (StubRef.static 1)).1.trans (by decide),
    ((stub_fix_dynamic_slot scenario scenario_two reg_reachable_scenario_two (by decide) 0
      (by decide) (by decide)).2.2.2.2.2 (StubRef.static 1)).2.2⟩

/-- C10, as stated, fails when the alias is a registered dynamic stub that is
itself unfixed: in the scenario with `FooBarEXT` and `BazEXT` registered,
`stub_fix_dynamic(FooBarEXT, BazEXT)` leaves the slot of `FooBarEXT` at `-1`,
and a later `stub_fix_dynamic(FooBarEXT, NULL)` changes it. -/
theorem stub_fix_dynamic_unfixed_alias :
    Reachable scenario scenario_two ∧ 0 < scenario_two.num_dynamic_stubs ∧
      (StubRef.dynamic 1).in_registry scenario scenario_two ∧
      ((stub_fix_dynamic scenario scenario_two 0 (some (StubRef.dynamic 1))).dynamic_stubs.getD
        0 default).slot = -1 ∧
      stub_fix_dynamic scenario
          (stub_fix_dynamic scenario scenario_two 0 (some (StubRef.dynamic 1))) 0 none
        ≠ stub_fix_dynamic scenario scenario_two 0 (some (StubRef.dynamic 1)) :=
  ⟨reachable_scenario_two, by decide,
    (show 1 < scenario_two.num_dynamic_stubs from by decide), by decide, by decide⟩

/-- C10 (amended): in a reachable state, for every registered dynamic stub and
every alias that is `NULL` or a stub whose own slot is `>= 0`, after
`stub_fix_dynamic(stub, alias)` the slot of the stub is `>= 0`, so a later
`stub_fix_dynamic` on the same stub, with any alias, changes nothing. -/
theorem stub_fix_dynamic_fixes (B : Build) (S : State) (hS : Reachable B S)
    (stub : Nat) (hreg : stub < S.num_dynamic_stubs) (alias_ : Option StubRef)
    (halias : ∀ a, alias_ = some a → 0 ≤ (deref B S a).slot) :
    0 ≤ ((stub_fix_dynamic B S stub alias_).dynamic_stubs.getD stub default).slot ∧
      ∀ later : Option StubRef,
        stub_fix_dynamic B (stub_fix_dynamic B S stub alias_) stub later
          = stub_fix_dynamic B S stub alias_ := by
  have hI := reachable_inv B S hS
  have hnext := hI.next
  obtain ⟨hget, _⟩ := getD_registered B S hI stub hreg
  have hlen : stub < S.dynamic_stubs.length := (List.getElem?_eq_some.mp hget).1
  have hslot : 0 ≤ ((stub_fix_dynamic B S stub alias_).dynamic_stubs.getD stub default).slot := by
    rcases le_or_lt 0 (S.dynamic_stubs.getD stub default).slot with hfixed | hunfixed
    · rw [stub_fix_dynamic_fixed B S stub alias_ hfixed]
      exact hfixed
    · cases alias_ with
      | none =>
        rw [stub_fix_dynamic_null B S stub hunfixed]
        show 0 ≤ ((S.dynamic_stubs.set stub _).getD stub default).slot
        rw [getD_set_self_slot _ _ _ hlen]
        show 0 ≤ S.next_dynamic_slot
        omega
      | some a =>
        rw [stub_fix_dynamic_alias B S stub a hunfixed]
        show 0 ≤ ((S.dynamic_stubs.set stub _).getD stub default).slot
        rw [getD_set_self_slot _ _ _ hlen]
        exact halias a rfl
  exact ⟨hslot, fun later => stub_fix_dynamic_fixed B _ stub later hslot⟩

/-- C10, on the scenario: `stub_fix_dynamic(FooBarEXT, Clear)` gives the slot
2 of the static alias, and fixing again with `NULL` changes nothing. -/
theorem stub_fix_dynamic_fixes_witness :
    ((stub_fix_dynamic scenario scenario_two 0 (some (StubRef.static 2))).dynamic_stubs.getD
        0 default).slot = 2 ∧
      stub_fix_dynamic scenario
          (stub_fix_dynamic scenario scenario_two 0 (some (StubRef.static 2))) 0 none
        = stub_fix_dynamic scenario scenario_two 0 (some (StubRef.static 2)) :=
  ⟨by decide,
    (stub_fix_dynamic_fixes scenario scenario_two reachable_scenario_two 0 (by decide)
      (some (StubRef.static 2)) (fun a h => by cases h; decide)).2 none⟩

/-! ## Theorems: the address of a stub -/

theorem stub_get_addr_of_addr (B : Build) (stub : mapi_stub) (h : stub.addr ≠ 0) :
    stub_get_addr B stub = .ok stub.addr := by
  simp [stub_get_addr, h]

theorem stub_get_addr_of_slot (B : Build) (stub : mapi_stub) (h0 : 0 ≤ stub.slot)
    (h1 : stub.slot < (B.MAPI_TABLE_NUM_STATIC : Int)) :
    stub_get_addr B stub = .ok (stub_addr B stub) := by
  have hmod : stub.slot % 4294967296 < (B.MAPI_TABLE_NUM_STATIC : Int) := by omega
  simp [stub_get_addr, stub_addr, hmod]

/-- C11: in a reachable state `stub_get_addr` passes its assertion on every
registered dynamic stub, fixed or not, and returns the address of its
generated entry, which is not null; on every static stub with `addr` unset
and a slot in `[0, MAPI_TABLE_NUM_STATIC)` it passes its assertion and
returns `entry_get_public(slot)`, which is not null when the public entry of
every static slot is not null. -/
theorem stub_get_addr_nonnull (B : Build) (S : State) (hS : Reachable B S)
    (hpub : ∀ slot : Int, 0 ≤ slot → slot < (B.MAPI_TABLE_NUM_STATIC : Int) →
      entry_get_public B slot ≠ 0) :
    (∀ stub ∈ S.registered, stub_get_addr B stub = .ok stub.addr ∧ stub.addr ≠ 0) ∧
      (∀ p ∈ B.public_stubs, p.addr = 0 → 0 ≤ p.slot →
        p.slot < (B.MAPI_TABLE_NUM_STATIC : Int) →
        stub_get_addr B p = .ok (entry_get_public B p.slot) ∧
          entry_get_public B p.slot ≠ 0) := by
  have hI := reachable_inv B S hS
  constructor
  · intro stub hstub
    exact ⟨stub_get_addr_of_addr B stub (hI.addr stub hstub), hI.addr stub hstub⟩
  · intro p _ haddr h0 h1
    refine ⟨?_, hpub p.slot h0 h1⟩
    rw [stub_get_addr_of_slot B p h0 h1]
    simp [stub_addr, haddr]

theorem scenario_public_entries (slot : Int) (h0 : 0 ≤ slot)
    (h1 : slot < (scenario.MAPI_TABLE_NUM_STATIC : Int)) : entry_get_public scenario slot ≠ 0 := by
  have h3 : slot < 3 := h1
  interval_cases slot <;> decide

/-- C11, on the scenario after the registration of `FooBarEXT`:
`stub_get_addr` returns the generated entry 8192 for the dynamic stub and the
public entry 4128 for the static stub `Clear`. -/
theorem stub_get_addr_nonnull_witness :
    stub_get_addr scenario (scenario_one.dynamic_stubs.getD 0 default) = .ok 8192 ∧
      stub_get_addr scenario (scenario.public_stubs.getD 2 default) = .ok 4128 :=
  ⟨((stub_get_addr_nonnull scenario scenario_one reachable_scenario_one
      scenario_public_entries).1
        (scenario_one.dynamic_stubs.getD 0 default) (by decide)).1.trans (by decide),
    ((stub_get_addr_nonnull scenario scenario_one reachable_scenario_one
      scenario_public_entries).2
        (scenario.public_stubs.getD 2 default) (by decide) (by decide) (by decide)
        (by decide)).1.trans (by decide)⟩

/-! ## Theorems: the patch callbacks -/

theorem stub_get_addr_public (B : Build) (hpub : public_addressable B) (p : mapi_stub)
    (hp : p ∈ B.public_stubs) : stub_get_addr B p = .ok (stub_addr B p) := by
  rcases hpub p hp with h | ⟨h0, h1⟩
  · rw [stub_get_addr_of_addr B p h]
    simp [stub_addr, h]
  · exact stub_get_addr_of_slot B p h0 h1

theorem stub_get_addr_registered (B : Build) (S : State) (hI : Inv B S) (x : mapi_stub)
    (hx : x ∈ S.registered) : stub_get_addr B x = .ok (stub_addr B x) := by
  rw [stub_get_addr_of_addr B x (hI.addr x hx)]
  simp [stub_addr, hI.addr x hx]

theorem restore_loop_ok (B : Build) (table : List mapi_stub) :
    ∀ (n i : Nat) (calls : List EntryCall), i + n ≤ table.length →
      (∀ stub ∈ (table.drop i).take n, stub_get_addr B stub = .ok (stub_addr B stub)) →
      restore_loop B table n i calls
        = .ok (calls ++ ((table.drop i).take n).map (restore_call B)) := by
  intro n
  induction n with
  | zero => intro i calls _ _; simp [restore_loop]
  | succ k ih =>
    intro i calls hlen hok
    have hi : i < table.length := by omega
    have hdrop : table.drop i = table[i] :: table.drop (i + 1) := List.drop_eq_getElem_cons hi
    rw [hdrop, List.take_succ_cons] at hok ⊢
    have h0 := hok table[i] (List.mem_cons_self _ _)
    simp only [restore_loop, List.getElem?_eq_getElem hi, restore_stub, h0]
    rw [ih (i + 1) _ (by omega) (fun stub hstub => hok stub (List.mem_cons_of_mem _ hstub))]
    simp [restore_call, restore_slot]

theorem stubRestoreFuncs_ok (B : Build) (hsize : B.entry_stub_size ≠ 0)
    (hlen : B.MAPI_TABLE_NUM_STATIC ≤ B.public_stubs.length) (hpub : public_addressable B)
    (S : State) (hI : Inv B S) :
    stubRestoreFuncs B S = .ok
      { S with entry_calls := S.entry_calls
          ++ (B.public_stubs.take B.MAPI_TABLE_NUM_STATIC).map (restore_call B)
          ++ S.registered.map (restore_call B) } := by
  have hallow : stub_allow_override B = true := by simp [stub_allow_override, hsize]
  have h1 := restore_loop_ok B B.public_stubs B.MAPI_TABLE_NUM_STATIC 0 S.entry_calls
    (by omega) (fun stub hstub => stub_get_addr_public B hpub stub
      (List.mem_of_mem_take (by simpa using hstub)))
  have hnum : 0 + S.num_dynamic_stubs ≤ S.dynamic_stubs.length := by
    have := hI.length
    rcases hI.num with h | h <;> omega
  have h2 := restore_loop_ok B S.dynamic_stubs S.num_dynamic_stubs 0
    (S.entry_calls ++ (B.public_stubs.take B.MAPI_TABLE_NUM_STATIC).map (restore_call B))
    hnum (fun stub hstub => stub_get_addr_registered B S hI stub (by simpa using hstub))
  simp only [List.drop_zero] at h1 h2
  simp only [stubRestoreFuncs, hallow, Bool.not_true, Bool.false_eq_true, if_false, h1, h2]
  rfl

/-- C12, as stated, fails on a backend without patching: with the pure C
backend (`entry_stub_size = 0`) `stubStartPatch` fails and `stubRestoreFuncs`
and `stubAbortPatch` stop on the assertion `assert(stub_allow_override())`,
already in the initial state. -/
theorem stubRestoreFuncs_pure_c_asserts :
    scenario_pure_c.entry_stub_size = 0 ∧ stubStartPatch scenario_pure_c = false ∧
      Reachable scenario_pure_c (State.init scenario_pure_c) ∧
      stubRestoreFuncs scenario_pure_c (State.init scenario_pure_c)
        = .error Fault.assertion ∧
      stubAbortPatch scenario_pure_c (State.init scenario_pure_c)
        = .error Fault.assertion :=
  ⟨by decide, by decide, Reachable.init, by decide, by decide⟩

/-- C12 (amended): on a backend that supports patching (`entry_stub_size`
not zero), with a static table of at least `MAPI_TABLE_NUM_STATIC` stubs that
`stub_get_addr` accepts, in every reachable state `stubRestoreFuncs` and
`stubAbortPatch` run to completion: no assertion fails and no array is read
past its end, whether `stubStartPatch` was called before or not. -/
theorem stubRestoreFuncs_total (B : Build) (hsize : B.entry_stub_size ≠ 0)
    (hlen : B.MAPI_TABLE_NUM_STATIC ≤ B.public_stubs.length) (hpub : public_addressable B)
    (S : State) (hS : Reachable B S) :
    ∃ S' : State, stubRestoreFuncs B S = .ok S' ∧ stubAbortPatch B S = .ok S' :=
  ⟨_, stubRestoreFuncs_ok B hsize hlen hpub S (reachable_inv B S hS),
    stubRestoreFuncs_ok B hsize hlen hpub S (reachable_inv B S hS)⟩

/-- C12, on the scenario (`entry_stub_size = 16`) with two registered stubs
and no call to `stubStartPatch`: `stubRestoreFuncs` returns. -/
theorem stubRestoreFuncs_total_witness :
    scenario.entry_stub_size = 16 ∧
      ∃ S' : State, stubRestoreFuncs scenario scenario_two = .ok S' ∧
        stubAbortPatch scenario scenario_two = .ok S' :=
  ⟨by decide,
    stubRestoreFuncs_total scenario (by decide) (by decide) (by decide) scenario_two
      reachable_scenario_two⟩

theorem trampoline_append (a b : List EntryCall) (addr : Nat) :
    trampoline (a ++ b) addr =
      match trampoline b addr with
      | some later => some later
      | none => trampoline a addr := by
  induction a with
  | nil =>
    simp only [List.nil_append, trampoline]
    cases trampoline b addr <;> rfl
  | cons c rest ih =>
    show trampoline (c :: (rest ++ b)) addr = _
    simp only [trampoline]
    rw [ih]
    cases trampoline b addr <;> rfl

theorem trampoline_append_twice (a b : List EntryCall) (addr : Nat) :
    trampoline (a ++ b ++ b) addr = trampoline (a ++ b) addr := by
  rw [trampoline_append (a ++ b) b, trampoline_append a b]
  cases trampoline b addr <;> rfl

theorem trampoline_some (calls : List EntryCall) (addr : Nat) (c : EntryCall)
    (h : trampoline calls addr = some c) : c ∈ calls ∧ c.entry = addr := by
  induction calls with
  | nil => simp [trampoline] at h
  | cons d rest ih =>
    simp only [trampoline] at h
    cases hr : trampoline rest addr with
    | some later =>
      rw [hr] at h
      injection h with h
      subst h
      exact ⟨List.mem_cons_of_mem _ (ih hr).1, (ih hr).2⟩
    | none =>
      rw [hr] at h
      simp only at h
      split_ifs at h with hd
      injection h with h
      subst h
      exact ⟨List.mem_cons_self _ _, hd⟩

theorem trampoline_none (calls : List EntryCall) (addr : Nat)
    (h : trampoline calls addr = none) : ∀ c ∈ calls, c.entry ≠ addr := by
  induction calls with
  | nil => simp
  | cons d rest ih =>
    simp only [trampoline] at h
    cases hr : trampoline rest addr with
    | some later => rw [hr] at h; cases h
    | none =>
      rw [hr] at h
      simp only at h
      intro c hc
      rcases List.mem_cons.mp hc with hcd | hcr
      · rw [hcd]
        intro hd
        rw [if_pos hd] at h
        cases h
      · exact ih hr c hcr

theorem trampoline_of_mem (calls : List EntryCall) (c : EntryCall) (hc : c ∈ calls)
    (hone : ∀ d ∈ calls, d.entry = c.entry → d = c) :
    trampoline calls c.entry = some c := by
  cases h : trampoline calls c.entry with
  | none => exact absurd rfl (trampoline_none calls c.entry h c hc)
  | some d =>
    obtain ⟨hd, hde⟩ := trampoline_some calls c.entry d h
    rw [hone d hd hde]

/-- C13: on a backend that supports patching, with a static table of
`MAPI_TABLE_NUM_STATIC` stubs (the fixed count of the static data) that
`stub_get_addr` accepts, in every reachable state `stubRestoreFuncs` returns
and the calls it makes to the backend are exactly
`entry_generate_default_code(stub_get_addr(stub), s)` for every stub of the
static table, in order, then for every registered dynamic stub, in order,
with `s` the slot of the stub or `MAPI_LAST_SLOT` when that slot is `-1`.
When stubs that share an entry are reset to the same slot, the entry of every
unfixed stub is afterwards the default code for `MAPI_LAST_SLOT`, and the
entry of every other stub the default code for its own slot. -/
theorem stubRestoreFuncs_calls (B : Build) (hsize : B.entry_stub_size ≠ 0)
    (hlen : B.public_stubs.length = B.MAPI_TABLE_NUM_STATIC) (hpub : public_addressable B)
    (S : State) (hS : Reachable B S) :
    ∃ S' : State, stubRestoreFuncs B S = .ok S' ∧
      S'.entry_calls = S.entry_calls ++ B.public_stubs.map (restore_call B)
        ++ S.registered.map (restore_call B) ∧
      ((∀ x ∈ B.public_stubs ++ S.registered, ∀ y ∈ B.public_stubs ++ S.registered,
          stub_addr B x = stub_addr B y → restore_slot B x = restore_slot B y) →
        ∀ x ∈ B.public_stubs ++ S.registered,
          (x.slot = -1 → trampoline S'.entry_calls (stub_addr B x)
            = some (EntryCall.generate_default_code (stub_addr B x) (MAPI_LAST_SLOT B))) ∧
          (x.slot ≠ -1 → trampoline S'.entry_calls (stub_addr B x)
            = some (EntryCall.generate_default_code (stub_addr B x) x.slot))) := by
  have hI := reachable_inv B S hS
  have hok := stubRestoreFuncs_ok B hsize (le_of_eq hlen.symm) hpub S hI
  have htake : B.public_stubs.take B.MAPI_TABLE_NUM_STATIC = B.public_stubs := by
    rw [← hlen]
    exact List.take_length _
  rw [htake] at hok
  refine ⟨_, hok, rfl, ?_⟩
  intro hcons x hx
  have hcalls : S.entry_calls ++ B.public_stubs.map (restore_call B)
      ++ S.registered.map (restore_call B)
      = S.entry_calls ++ (B.public_stubs ++ S.registered).map (restore_call B) := by
    simp
  have hmem : restore_call B x ∈ (B.public_stubs ++ S.registered).map (restore_call B) :=
    List.mem_map.mpr ⟨x, hx, rfl⟩
  have hlast := trampoline_of_mem _ (restore_call B x) hmem (by
    intro d hd hde
    obtain ⟨y, hy, hyd⟩ := List.mem_map.mp hd
    rw [← hyd] at hde ⊢
    have haddr : stub_addr B y = stub_addr B x := hde
    simp only [restore_call, haddr, hcons y hy x hx haddr])
  have htr : trampoline (S.entry_calls ++ B.public_stubs.map (restore_call B)
      ++ S.registered.map (restore_call B)) (stub_addr B x) = some (restore_call B x) := by
    rw [hcalls, trampoline_append]
    have : (restore_call B x).entry = stub_addr B x := rfl
    rw [this] at hlast
    rw [hlast]
  constructor
  · intro hslot
    show trampoline (S.entry_calls ++ B.public_stubs.map (restore_call B)
      ++ S.registered.map (restore_call B)) (stub_addr B x) = _
    rw [htr]
    simp [restore_call, restore_slot, hslot]
  · intro hslot
    show trampoline (S.entry_calls ++ B.public_stubs.map (restore_call B)
      ++ S.registered.map (restore_call B)) (stub_addr B x) = _
    rw [htr]
    simp [restore_call, restore_slot, hslot]

/-- C13, on the scenario with `FooBarEXT` and `BazEXT` registered and
unfixed: `stubRestoreFuncs` makes five calls, three for the static slots 0, 1
and 2 at the public entries and two for `MAPI_LAST_SLOT = 6` at the generated
entries. -/
theorem stubRestoreFuncs_calls_witness :
    stubRestoreFuncs scenario scenario_two = .ok
        { scenario_two with entry_calls := scenario_two.entry_calls ++
          [EntryCall.generate_default_code 4096 0, EntryCall.generate_default_code 4112 1,
           EntryCall.generate_default_code 4128 2, EntryCall.generate_default_code 8192 6,
           EntryCall.generate_default_code 8208 6] } ∧
      ∃ S' : State, stubRestoreFuncs scenario scenario_two = .ok S' ∧
        S'.entry_calls = scenario_two.entry_calls
          ++ scenario.public_stubs.map (restore_call scenario)
          ++ scenario_two.registered.map (restore_call scenario) ∧
        trampoline S'.entry_calls 8192
          = some (EntryCall.generate_default_code 8192 (MAPI_LAST_SLOT scenario)) := by
  refine ⟨by decide, ?_⟩
  obtain ⟨S', h1, h2, h3⟩ := stubRestoreFuncs_calls scenario (by decide) (by decide)
    (by decide) scenario_two reachable_scenario_two
  exact ⟨S', h1, h2, (h3 (by decide) (scenario_two.dynamic_stubs.getD 0 default)
    (by decide)).1 (by decide)⟩

/-- C14: on a backend that supports patching, with a static table of at
least `MAPI_TABLE_NUM_STATIC` stubs that `stub_get_addr` accepts, in every
reachable state `stubRestoreFuncs` returns, and it returns again when run a
second time; one run leaves `dynamic_stubs` (the name, slot and address of
every stub), `num_dynamic_stubs` and `next_dynamic_slot` unchanged, and after
the second run the registry and the state of every entry are what they were
after the first. -/
theorem stubRestoreFuncs_idempotent (B : Build) (hsize : B.entry_stub_size ≠ 0)
    (hlen : B.MAPI_TABLE_NUM_STATIC ≤ B.public_stubs.length) (hpub : public_addressable B)
    (S : State) (hS : Reachable B S) :
    ∃ S₁ S₂ : State, stubRestoreFuncs B S = .ok S₁ ∧ stubRestoreFuncs B S₁ = .ok S₂ ∧
      (S₁.dynamic_stubs = S.dynamic_stubs ∧ S₁.num_dynamic_stubs = S.num_dynamic_stubs ∧
        S₁.next_dynamic_slot = S.next_dynamic_slot) ∧
      (S₂.dynamic_stubs = S₁.dynamic_stubs ∧ S₂.num_dynamic_stubs = S₁.num_dynamic_stubs ∧
        S₂.next_dynamic_slot = S₁.next_dynamic_slot) ∧
      ∀ addr : Nat, trampoline S₂.entry_calls addr = trampoline S₁.entry_calls addr := by
  have hI := reachable_inv B S hS
  have h1 := stubRestoreFuncs_ok B hsize hlen hpub S hI
  have hI1 := reachable_inv B _ (Reachable.step hS (Step.restore_funcs h1))
  have h2 := stubRestoreFuncs_ok B hsize hlen hpub _ hI1
  refine ⟨_, _, h1, h2, ⟨rfl, rfl, rfl⟩, ⟨rfl, rfl, rfl⟩, ?_⟩
  intro addr
  show trampoline (S.entry_calls
      ++ (B.public_stubs.take B.MAPI_TABLE_NUM_STATIC).map (restore_call B)
      ++ S.registered.map (restore_call B)
      ++ (B.public_stubs.take B.MAPI_TABLE_NUM_STATIC).map (restore_call B)
      ++ S.registered.map (restore_call B)) addr
    = trampoline (S.entry_calls
      ++ (B.public_stubs.take B.MAPI_TABLE_NUM_STATIC).map (restore_call B)
      ++ S.registered.map (restore_call B)) addr
  generalize (B.public_stubs.take B.MAPI_TABLE_NUM_STATIC).map (restore_call B) = b
  generalize S.registered.map (restore_call B) = c
  have hassoc : S.entry_calls ++ b ++ c ++ b ++ c = (S.entry_calls ++ (b ++ c)) ++ (b ++ c) := by
    simp
  have hassoc' : S.entry_calls ++ b ++ c = S.entry_calls ++ (b ++ c) := by simp
  rw [hassoc, hassoc']
  exact trampoline_append_twice _ _ _

/-- C14, on the scenario with two registered stubs: both runs return and the
entry at 8192 is the default code for `MAPI_LAST_SLOT = 6` after each. -/
theorem stubRestoreFuncs_idempotent_witness :
    ∃ S₁ S₂ : State, stubRestoreFuncs scenario scenario_two = .ok S₁ ∧
      stubRestoreFuncs scenario S₁ = .ok S₂ ∧
      S₂.dynamic_stubs = scenario_two.dynamic_stubs ∧
      trampoline S₂.entry_calls 8192 = trampoline S₁.entry_calls 8192 := by
  obtain ⟨S₁, S₂, h1, h2, h3, h4, h5⟩ := stubRestoreFuncs_idempotent scenario (by decide)
    (by decide) (by decide) scenario_two reachable_scenario_two
  exact ⟨S₁, S₂, h1, h2, h4.1.trans h3.1, h5 8192⟩

theorem stub_find_dynamic_lookup (B : Build) (S : State) (name : List Char)
    (strdup_ok : Bool) (entry : Nat) :
    stub_find_dynamic B S name false strdup_ok entry
      = .ok (first_index (name_matches name) S.registered 0, S) := by
  simp [stub_find_dynamic, State.registered]

theorem stub_find_public_mem (B : Build) (name : List Char) (i : Nat)
    (h : stub_find_public B name = some i) :
    B.public_stubs.getD i default ∈ B.public_stubs := by
  obtain ⟨p, hp, _⟩ := bsearch_loop_sound _ _ _ _ _ _ _ h
  rw [List.getD_eq_getElem?_getD, hp]
  exact List.getElem?_mem hp

theorem stub_addr_public_ne_zero (B : Build) (hpub : public_addressable B)
    (hentries : ∀ slot : Int, 0 ≤ slot → slot < (B.MAPI_TABLE_NUM_STATIC : Int) →
      entry_get_public B slot ≠ 0)
    (p : mapi_stub) (hp : p ∈ B.public_stubs) : stub_addr B p ≠ 0 := by
  unfold stub_addr
  split_ifs with h
  · exact h
  · rcases hpub p hp with h' | ⟨h0, h1⟩
    · exact absurd h' h
    · exact hentries p.slot h0 h1

theorem first_index_registered (B : Build) (S : State) (hI : Inv B S) (p : mapi_stub → Bool)
    (j : Nat) (h : first_index p S.registered 0 = some j) :
    j < S.num_dynamic_stubs ∧ S.dynamic_stubs.getD j default ∈ S.registered ∧
      p (S.dynamic_stubs.getD j default) = true := by
  have hlt := first_index_lt p _ _ _ h
  rw [length_registered B S hI, Nat.zero_add] at hlt
  obtain ⟨_, ⟨x, hx, hpx⟩, _⟩ := first_index_some p _ _ _ h
  obtain ⟨hget, hmem⟩ := getD_registered B S hI j hlt
  refine ⟨hlt, hmem, ?_⟩
  have hx' : S.dynamic_stubs[j]? = some x := by
    have : (List.take S.num_dynamic_stubs S.dynamic_stubs)[j]? = some x := by simpa using hx
    rwa [List.getElem?_take_of_lt hlt] at this
  rw [hget] at hx'
  injection hx' with hx'
  rw [hx']
  exact hpx

/-- C15: with a static table that `stub_get_addr` accepts and public entries
that are not null, in every reachable state `stubGetPatchOffset(name)`
returns and leaves the state as it is; it returns true exactly when
`stub_find_public(name)` finds a static stub or a registered dynamic stub has
exactly that name; the value stored through both pointers (when they are not
null) is `stub_get_addr` of the static stub found, else of the first dynamic
stub with that name, and null when the call returns false. -/
theorem stubGetPatchOffset_spec (B : Build) (hpub : public_addressable B)
    (hentries : ∀ slot : Int, 0 ≤ slot → slot < (B.MAPI_TABLE_NUM_STATIC : Int) →
      entry_get_public B slot ≠ 0)
    (S : State) (hS : Reachable B S) (name : List Char) (writePtr execPtr : Option Nat) :
    ∃ (found : Bool) (addr : Nat),
      stubGetPatchOffset B S name writePtr execPtr
        = .ok (found, writePtr.map (fun _ => addr), execPtr.map (fun _ => addr), S) ∧
      (found = true ↔ ((stub_find_public B name).isSome = true ∨
        ∃ x ∈ S.registered, x.nameBuffer = some name)) ∧
      (∀ i, stub_find_public B name = some i →
        stub_get_addr B (B.public_stubs.getD i default) = .ok addr) ∧
      (stub_find_public B name = none →
        ∀ j, first_index (name_matches name) S.registered 0 = some j →
          stub_get_addr B (S.dynamic_stubs.getD j default) = .ok addr) ∧
      (found = false → addr = 0) := by
  have hI := reachable_inv B S hS
  cases hp : stub_find_public B name with
  | some i =>
    have hmem := stub_find_public_mem B name i hp
    have hget := stub_get_addr_public B hpub _ hmem
    have hne := stub_addr_public_ne_zero B hpub hentries _ hmem
    refine ⟨true, stub_addr B (B.public_stubs.getD i default), ?_, by simp, ?_, by simp, by simp⟩
    · simp only [stubGetPatchOffset, hp, deref, hget, decide_eq_true hne]
    · intro i' hi'
      injection hi' with hi'
      rw [← hi']
      exact hget
  | none =>
    cases hf : first_index (name_matches name) S.registered 0 with
    | none =>
      refine ⟨false, 0, ?_, ?_, by simp, by simp, by simp⟩
      · simp [stubGetPatchOffset, hp, stub_find_dynamic_lookup, hf]
      · simp only [Bool.false_eq_true, Option.isSome_none, false_or, false_iff, not_exists,
          not_and]
        exact absent_of_first_index S name hf
    | some j =>
      obtain ⟨_, hmem, hmatch⟩ := first_index_registered B S hI _ j hf
      have hget := stub_get_addr_registered B S hI _ hmem
      have hne : stub_addr B (S.dynamic_stubs.getD j default) ≠ 0 := by
        unfold stub_addr
        rw [if_pos (hI.addr _ hmem)]
        exact hI.addr _ hmem
      refine ⟨true, stub_addr B (S.dynamic_stubs.getD j default), ?_, ?_, by simp, ?_, by simp⟩
      · simp only [stubGetPatchOffset, hp, stub_find_dynamic_lookup, hf, Option.map_some',
          deref, hget, decide_eq_true hne]
      · simp only [Option.isSome_none, Bool.false_eq_true, false_or, true_iff]
        exact ⟨_, hmem, (name_matches_iff name _).mp hmatch⟩
      · intro _ j' hj'
        injection hj' with hj'
        rw [← hj']
        exact hget

/-- C15, on the scenario after the registration of `FooBarEXT`: the static
name `glClear` gives the public entry 4128, the dynamic name `FooBarEXT` the
generated entry 8192, an unknown name gives false and null, and the state is
unchanged. -/
theorem stubGetPatchOffset_spec_witness :
    stubGetPatchOffset scenario scenario_one "glClear".toList (some 0) (some 0)
        = .ok (true, some 4128, some 4128, scenario_one) ∧
      stubGetPatchOffset scenario scenario_one "FooBarEXT".toList (some 0) none
        = .ok (true, some 8192, none, scenario_one) ∧
      stubGetPatchOffset scenario scenario_one "BazEXT".toList (some 7) (some 7)
        = .ok (false, some 0, some 0, scenario_one) ∧
      ∃ (found : Bool) (addr : Nat),
        stubGetPatchOffset scenario scenario_one "BazEXT".toList (some 7) (some 7)
          = .ok (found, some addr, some addr, scenario_one) ∧ (found = false → addr = 0) := by
  refine ⟨by decide, by decide, by decide, ?_⟩
  obtain ⟨found, addr, h1, _, _, _, h5⟩ := stubGetPatchOffset_spec scenario (by decide)
    scenario_public_entries scenario_one reachable_scenario_one "BazEXT".toList (some 7) (some 7)
  exact ⟨found, addr, h1, h5⟩

/-- C16, as stated, fails for a negative `entry_stub_size`: with
`entry_stub_size = -1`, which is not `> 0`, `stubStartPatch` returns true and
`stub_get_patch_callbacks` returns the callback table. -/
theorem stubStartPatch_negative_size :
    ¬ (0 < scenario_negative.entry_stub_size) ∧ stubStartPatch scenario_negative = true ∧
      (stub_get_patch_callbacks scenario_negative).isSome = true :=
  ⟨by decide, by decide, by decide⟩

/-- C16 (amended): for every integer value of `entry_stub_size`,
`stubStartPatch` returns true exactly when `entry_stub_size` is not zero, and
`stub_get_patch_callbacks` returns the callback table in that case and null
otherwise; for a size that is not negative, that is exactly when
`entry_stub_size > 0`. -/
theorem stubStartPatch_iff (B : Build) :
    (stubStartPatch B = true ↔ B.entry_stub_size ≠ 0) ∧
      (B.entry_stub_size ≠ 0 → stub_get_patch_callbacks B = some (stubPatchCallbacks B)) ∧
      (B.entry_stub_size = 0 → stub_get_patch_callbacks B = none) ∧
      (0 ≤ B.entry_stub_size → (stubStartPatch B = true ↔ 0 < B.entry_stub_size)) := by
  have hallow : stub_allow_override B = true ↔ B.entry_stub_size ≠ 0 := by
    simp [stub_allow_override]
  have hstart : stubStartPatch B = true ↔ B.entry_stub_size ≠ 0 := by
    rw [← hallow]
    unfold stubStartPatch
    cases stub_allow_override B <;> simp
  refine ⟨hstart, ?_, ?_, ?_⟩
  · intro h
    simp [stub_get_patch_callbacks, hallow.mpr h]
  · intro h
    have : stub_allow_override B = false := by simp [stub_allow_override, h]
    simp [stub_get_patch_callbacks, this]
  · intro h0
    rw [hstart]
    constructor
    · intro h; omega
    · intro h; omega

/-- C16, on the scenario (`entry_stub_size = 16`) and with the pure C
backend (`entry_stub_size = 0`). -/
theorem stubStartPatch_iff_witness :
    stubStartPatch scenario = true ∧ stubStartPatch scenario_pure_c = false ∧
      stub_get_patch_callbacks scenario_pure_c = none :=
  ⟨((stubStartPatch_iff scenario).2.2.2 (by decide)).mpr (by decide), by decide,
    (stubStartPatch_iff scenario_pure_c).2.2.1 (by decide)⟩

/-! ## Theorems: lookup by slot -/

theorem search_table_by_slot_some (table : List mapi_stub) (n i : Nat) (slot : Int)
    (h : search_table_by_slot table n slot = some i) :
    i < n ∧ ∃ x, table[i]? = some x ∧ x.slot = slot ∧
      ∀ (j : Nat) (y : mapi_stub), j < i → table[j]? = some y → y.slot ≠ slot := by
  unfold search_table_by_slot at h
  have hlt := first_index_lt _ _ _ _ h
  obtain ⟨_, ⟨x, hx, hpx⟩, hbefore⟩ := first_index_some _ _ _ _ h
  have hin : i < n := by
    have := List.length_take_le n table
    omega
  simp only [Nat.sub_zero] at hx hbefore
  rw [List.getElem?_take_of_lt hin] at hx
  refine ⟨hin, x, hx, by simpa using hpx, ?_⟩
  intro j y hj hy
  have := hbefore j y hj (by rw [List.getElem?_take_of_lt (by omega)]; exact hy)
  simpa using this

theorem search_table_by_slot_none (table : List mapi_stub) (n : Nat) (slot : Int) :
    search_table_by_slot table n slot = none ↔ ∀ x ∈ table.take n, x.slot ≠ slot := by
  unfold search_table_by_slot
  rw [first_index_none]
  simp

/-- C17: for every integer slot, `stub_find_by_slot` returns a stub exactly
when a static stub or a registered dynamic stub has that slot; a static stub
returned is the first static stub with that slot; a dynamic stub is returned
only when no static stub has that slot, is registered (its index is below
`num_dynamic_stubs`) and is the first dynamic stub with that slot; in both
cases the slot of the stub returned is the argument. -/
theorem stub_find_by_slot_spec (B : Build) (S : State) (slot : Int) :
    ((stub_find_by_slot B S slot).isSome = true ↔
        ((∃ p ∈ B.public_stubs, p.slot = slot) ∨ ∃ x ∈ S.registered, x.slot = slot)) ∧
      (∀ i, stub_find_by_slot B S slot = some (StubRef.static i) →
        ∃ p, B.public_stubs[i]? = some p ∧ p.slot = slot ∧
          ∀ (j : Nat) (q : mapi_stub), j < i → B.public_stubs[j]? = some q → q.slot ≠ slot) ∧
      (∀ i, stub_find_by_slot B S slot = some (StubRef.dynamic i) →
        i < S.num_dynamic_stubs ∧ (∀ p ∈ B.public_stubs, p.slot ≠ slot) ∧
          ∃ x, S.dynamic_stubs[i]? = some x ∧ x.slot = slot ∧
            ∀ (j : Nat) (y : mapi_stub), j < i → S.dynamic_stubs[j]? = some y →
              y.slot ≠ slot) := by
  unfold stub_find_by_slot
  cases hpub : search_table_by_slot B.public_stubs B.public_stubs.length slot with
  | some i =>
    obtain ⟨_, p, hp, hps, hfirst⟩ := search_table_by_slot_some _ _ _ _ hpub
    refine ⟨?_, ?_, ?_⟩
    · simp only [Option.isSome_some, true_iff]
      exact Or.inl ⟨p, List.getElem?_mem hp, hps⟩
    · intro i' hi'
      simp only [Option.some.injEq, StubRef.static.injEq] at hi'
      rw [← hi']
      exact ⟨p, hp, hps, hfirst⟩
    · intro i' hi'
      simp at hi'
  | none =>
    have hnone := (search_table_by_slot_none _ _ _).mp hpub
    rw [List.take_length] at hnone
    cases hdyn : search_table_by_slot S.dynamic_stubs S.num_dynamic_stubs slot with
    | none =>
      have hnone' := (search_table_by_slot_none _ _ _).mp hdyn
      refine ⟨?_, by simp, by simp⟩
      simp only [Option.map_none', Option.isSome_none, Bool.false_eq_true, false_iff, not_or,
        not_exists, not_and]
      exact ⟨hnone, hnone'⟩
    | some i =>
      obtain ⟨hin, x, hx, hxs, hfirst⟩ := search_table_by_slot_some _ _ _ _ hdyn
      refine ⟨?_, by simp, ?_⟩
      · simp only [Option.map_some', Option.isSome_some, true_iff]
        exact Or.inr ⟨x, (mem_registered_iff S x).mpr ⟨i, hin, hx⟩, hxs⟩
      · intro i' hi'
        simp only [Option.map_some', Option.some.injEq, StubRef.dynamic.injEq] at hi'
        rw [← hi']
        exact ⟨hin, hnone, x, hx, hxs, hfirst⟩

/-- C17, on the scenario with stub 0 fixed to slot 3: slot 2 is found in the
static table, slot 3 in the dynamic table, and slot 4 nowhere. -/
theorem stub_find_by_slot_spec_witness :
    stub_find_by_slot scenario scenario_fixed 2 = some (StubRef.static 2) ∧
      stub_find_by_slot scenario scenario_fixed 3 = some (StubRef.dynamic 0) ∧
      stub_find_by_slot scenario scenario_fixed 4 = none ∧
      0 < scenario_fixed.num_dynamic_stubs :=
  ⟨by decide, by decide, by decide,
    ((stub_find_by_slot_spec scenario scenario_fixed 3).2.2 0 (by decide)).1⟩

/-! ## Theorems: registrations one after the other -/

theorem stub_find_dynamic_new (B : Build) (S : State) (hS : Reachable B S)
    (name : List Char) (hguard : stub_find_public B name = none)
    (habsent : ∀ stub ∈ S.registered, stub.nameBuffer ≠ some name)
    (hcap : (S.num_dynamic_stubs : Int) < (B.MAPI_TABLE_NUM_DYNAMIC : Int) - 1)
    (entry : Nat) (he : entry ≠ 0) :
    ∃ S' : State,
      stub_find_dynamic B S name true true entry = .ok (some S.num_dynamic_stubs, S') ∧
      S'.num_dynamic_stubs = S.num_dynamic_stubs + 1 ∧
      S'.registered = S.registered ++ [new_stub (name, entry)] :=
  ⟨_, (stub_find_dynamic_absent B S name true entry hguard
    (first_index_of_absent S name habsent)).trans
      (congrArg Except.ok (stub_add_dynamic_some B S name entry hcap he)), rfl,
    registered_add B S (reachable_inv B S hS) _ _ hcap⟩

theorem threads_inv_step (B : Build) (S : State) (requests : List (List Char × Nat))
    (hnodup : (requests.map Prod.fst).Nodup)
    (hstatic : ∀ r ∈ requests, stub_find_public B r.1 = none)
    (hnew : ∀ r ∈ requests, ∀ x ∈ S.registered, x.nameBuffer ≠ some r.1)
    (hentry : ∀ r ∈ requests, r.2 ≠ 0)
    (hcap : (S.num_dynamic_stubs : Int) + (requests.length : Int)
      ≤ (B.MAPI_TABLE_NUM_DYNAMIC : Int) - 1)
    (T T' : Threads) (hT : ThreadsInv B S requests T) (hstep : ThreadStep B T T') :
    ThreadsInv B S requests T' := by
  cases hstep with
  | lock r before after hfree hr =>
    refine ⟨hT.reachable, ?_, hT.registered, hT.num, hT.stubs⟩
    have h := hT.threads
    rw [hfree, hr] at h
    simp only [Option.toList_none, List.append_nil, Option.toList_some] at h ⊢
    refine List.Perm.trans ?_ h
    apply List.Perm.append_right
    exact (List.perm_append_singleton r _).trans List.perm_middle.symm
  | run r stub S' hheld hcall =>
    have hperm := hT.threads
    rw [hheld] at hperm
    simp only [Option.toList_some] at hperm
    have hr_mem : r ∈ requests := hperm.mem_iff.mp (by simp)
    have hnames : ((T.waiting ++ [r] ++ T.returned.map Prod.fst).map Prod.fst).Nodup :=
      (hperm.map Prod.fst).nodup_iff.mpr hnodup
    have hfresh : ∀ q ∈ T.returned, q.1.1 ≠ r.1 := by
      intro q hq heq
      simp only [List.map_append, List.map_cons, List.map_nil, List.map_map] at hnames
      have h1 := (List.nodup_append.mp hnames).2.2
      exact h1 (by simp : r.1 ∈ List.map Prod.fst T.waiting ++ [r.1])
        (by rw [← heq]; exact List.mem_map.mpr ⟨q, hq, rfl⟩)
    have hlen : T.returned.length + 1 ≤ requests.length := by
      have := hperm.length_eq
      simp only [List.length_append, List.length_map, List.length_cons, List.length_nil]
        at this
      omega
    have habsent : ∀ x ∈ T.registry.registered, x.nameBuffer ≠ some r.1 := by
      intro x hx
      rw [hT.registered] at hx
      rcases List.mem_append.mp hx with hx | hx
      · exact hnew r hr_mem x hx
      · obtain ⟨q, hq, hqx⟩ := List.mem_map.mp hx
        obtain ⟨q', hq', hqq⟩ := List.mem_map.mp hq
        rw [← hqx, ← hqq]
        intro heq
        injection heq with heq
        exact hfresh q' hq' heq
    have hnum := hT.num
    obtain ⟨S₁, h1, hnum₁, hreg₁⟩ := stub_find_dynamic_new B T.registry hT.reachable r.1
      (hstatic r hr_mem) habsent (by omega) r.2 (hentry r hr_mem)
    rw [h1] at hcall
    injection hcall with hcall
    injection hcall with hstub hS'
    subst hS' hstub
    refine ⟨Reachable.step hT.reachable (Step.find_dynamic r.1 true true r.2 _ h1), ?_, ?_,
      ?_, ?_⟩
    · simp only [Option.toList_none, List.append_nil, List.map_append, List.map_cons,
        List.map_nil]
      refine List.Perm.trans ?_ hperm
      rw [List.append_assoc]
      apply List.Perm.append_left
      exact List.perm_append_comm
    · show S₁.registered = _
      rw [hreg₁, hT.registered]
      simp
    · show S₁.num_dynamic_stubs = _
      rw [hnum₁, hnum]
      simp only [List.length_append, List.length_cons, List.length_nil]
      omega
    · intro q hq
      rcases List.mem_append.mp hq with hq | hq
      · exact hT.stubs q hq
      · simp only [List.mem_singleton] at hq
        rw [hq]
        simp

theorem threads_inv (B : Build) (S : State) (hS : Reachable B S)
    (requests : List (List Char × Nat))
    (hnodup : (requests.map Prod.fst).Nodup)
    (hstatic : ∀ r ∈ requests, stub_find_public B r.1 = none)
    (hnew : ∀ r ∈ requests, ∀ x ∈ S.registered, x.nameBuffer ≠ some r.1)
    (hentry : ∀ r ∈ requests, r.2 ≠ 0)
    (hcap : (S.num_dynamic_stubs : Int) + (requests.length : Int)
      ≤ (B.MAPI_TABLE_NUM_DYNAMIC : Int) - 1)
    (T₀ T : Threads)
    (h₀ : T₀ = { registry := S, waiting := requests, holder := none, returned := [] })
    (hrun : Interleaving B T₀ T) : ThreadsInv B S requests T := by
  induction hrun with
  | refl =>
    subst h₀
    exact ⟨hS, by simp, by simp, by simp, by simp⟩
  | step _ hstep ih =>
    exact threads_inv_step B S requests hnodup hstatic hnew hentry hcap _ _ ih hstep

/-- C18: N threads call `stub_find_dynamic(name_i, 1)` from a reachable state,
with pairwise distinct names that are not static and not yet registered, room
for N more stubs, and `strdup` and `entry_generate` succeeding.  At every
point of every interleaving each thread is waiting, in the critical section
or returned, each returned thread got a stub, and the table holds one new
stub for each returned thread; a thread can always move as long as one has
not returned; and when all have returned the table holds exactly N more
stubs and the registered names are the names registered before and the N
names, each exactly once. -/
theorem concurrent_find_dynamic (B : Build) (S : State) (hS : Reachable B S)
    (requests : List (List Char × Nat))
    (hnodup : (requests.map Prod.fst).Nodup)
    (hstatic : ∀ r ∈ requests, stub_find_public B r.1 = none)
    (hnew : ∀ r ∈ requests, ∀ x ∈ S.registered, x.nameBuffer ≠ some r.1)
    (hentry : ∀ r ∈ requests, r.2 ≠ 0)
    (hcap : (S.num_dynamic_stubs : Int) + (requests.length : Int)
      ≤ (B.MAPI_TABLE_NUM_DYNAMIC : Int) - 1)
    (T : Threads)
    (hrun : Interleaving B
      { registry := S, waiting := requests, holder := none, returned := [] } T) :
    ((T.waiting ++ T.holder.toList ++ T.returned.map Prod.fst).Perm requests ∧
        (∀ q ∈ T.returned, q.2 ≠ none) ∧
        T.registry.num_dynamic_stubs = S.num_dynamic_stubs + T.returned.length ∧
        T.registry.registered = S.registered ++ (T.returned.map Prod.fst).map new_stub) ∧
      ((T.waiting ≠ [] ∨ T.holder ≠ none) → ∃ T', ThreadStep B T T') ∧
      (T.waiting = [] → T.holder = none →
        T.returned.length = requests.length ∧
        T.registry.num_dynamic_stubs = S.num_dynamic_stubs + requests.length ∧
        (T.registry.registered.map (fun stub => stub.nameBuffer)).Perm
          (S.registered.map (fun stub => stub.nameBuffer)
            ++ requests.map (fun r => some r.1)) ∧
        (T.registry.registered.map (fun stub => stub.nameBuffer)).Nodup) := by
  have hT := threads_inv B S hS requests hnodup hstatic hnew hentry hcap _ T rfl hrun
  refine ⟨⟨hT.threads, hT.stubs, hT.num, hT.registered⟩, ?_, ?_⟩
  · intro hmove
    cases hh : T.holder with
    | some r =>
      have hperm := hT.threads
      rw [hh] at hperm
      simp only [Option.toList_some] at hperm
      have hr_mem : r ∈ requests := hperm.mem_iff.mp (by simp)
      have hnames : ((T.waiting ++ [r] ++ T.returned.map Prod.fst).map Prod.fst).Nodup :=
        (hperm.map Prod.fst).nodup_iff.mpr hnodup
      have hlen : T.returned.length + 1 ≤ requests.length := by
        have := hperm.length_eq
        simp only [List.length_append, List.length_map, List.length_cons, List.length_nil]
          at this
        omega
      have habsent : ∀ x ∈ T.registry.registered, x.nameBuffer ≠ some r.1 := by
        intro x hx
        rw [hT.registered] at hx
        rcases List.mem_append.mp hx with hx | hx
        · exact hnew r hr_mem x hx
        · obtain ⟨q, hq, hqx⟩ := List.mem_map.mp hx
          obtain ⟨q', hq', hqq⟩ := List.mem_map.mp hq
          rw [← hqx, ← hqq]
          intro heq
          injection heq with heq
          simp only [List.map_append, List.map_cons, List.map_nil, List.map_map] at hnames
          exact (List.nodup_append.mp hnames).2.2
            (by simp : r.1 ∈ List.map Prod.fst T.waiting ++ [r.1])
            (by rw [← heq]; exact List.mem_map.mpr ⟨q', hq', rfl⟩)
      have hnum := hT.num
      obtain ⟨S₁, h1, _, _⟩ := stub_find_dynamic_new B T.registry hT.reachable r.1
        (hstatic r hr_mem) habsent (by omega) r.2 (hentry r hr_mem)
      exact ⟨_, ThreadStep.run T r _ S₁ hh h1⟩
    | none =>
      rcases hmove with hw | hw
      · cases hwait : T.waiting with
        | nil => exact absurd hwait hw
        | cons r rest => exact ⟨_, ThreadStep.lock T r [] rest hh hwait⟩
      · exact absurd hh hw
  · intro hw hh
    have hperm := hT.threads
    rw [hw, hh] at hperm
    simp only [List.nil_append, Option.toList_none, List.append_nil] at hperm
    have hlen : T.returned.length = requests.length := by
      have := hperm.length_eq
      simpa using this
    refine ⟨hlen, by rw [hT.num, hlen], ?_, (reachable_inv B _ hT.reachable).nodup⟩
    rw [hT.registered, List.map_append, List.map_map]
    apply List.Perm.append_left
    have : (fun stub : mapi_stub => stub.nameBuffer) ∘ new_stub
        = fun r : List Char × Nat => some r.1 := rfl
    rw [this]
    exact hperm.map _

theorem two_threads_interleaving :
    Interleaving scenario two_threads two_threads_returned :=
  Interleaving.step
    (Interleaving.step
      (Interleaving.step
        (Interleaving.step Interleaving.refl
          (ThreadStep.lock two_threads ("BazEXT".toList, 8208) [("FooBarEXT".toList, 8192)] []
            rfl rfl))
        (ThreadStep.run _ ("BazEXT".toList, 8208) (some 0)
          (after_find scenario (State.init scenario) "BazEXT" 8208) rfl (by decide)))
      (ThreadStep.lock _ ("FooBarEXT".toList, 8192) [] [] rfl rfl))
    (ThreadStep.run _ ("FooBarEXT".toList, 8192) (some 1)
      (after_find scenario (after_find scenario (State.init scenario) "BazEXT" 8208)
        "FooBarEXT" 8192) rfl (by decide))

/-- C18, on the scenario with two threads: in the interleaving in which the
thread of `BazEXT` takes the mutex first, both threads return a stub and the
table ends with exactly 2 registered stubs. -/
theorem concurrent_find_dynamic_witness :
    Interleaving scenario two_threads two_threads_returned ∧
      two_threads_returned.returned.length = 2 ∧
      two_threads_returned.registry.num_dynamic_stubs
        = (State.init scenario).num_dynamic_stubs + 2 :=
  ⟨two_threads_interleaving,
    ((concurrent_find_dynamic scenario (State.init scenario) Reachable.init
      [("FooBarEXT".toList, 8192), ("BazEXT".toList, 8208)] (by decide) (by decide)
      (by decide) (by decide) (by decide) two_threads_returned two_threads_interleaving).2.2
      rfl rfl).1,
    ((concurrent_find_dynamic scenario (State.init scenario) Reachable.init
      [("FooBarEXT".toList, 8192), ("BazEXT".toList, 8208)] (by decide) (by decide)
      (by decide) (by decide) (by decide) two_threads_returned two_threads_interleaving).2.2
      rfl rfl).2.1⟩

/-! ## Theorems: the range of the slots -/

theorem countP_take_set {α : Type} (p : α → Bool) (l : List α) (i n : Nat) (x a : α)
    (hi : i < n) (ha : l[i]? = some a) (hpa : p a = false) :
    ((l.set i x).take n).countP p = (l.take n).countP p + if p x then 1 else 0 := by
  induction l generalizing i n with
  | nil => simp at ha
  | cons b rest ih =>
    cases n with
    | zero => omega
    | succ m =>
      cases i with
      | zero =>
        simp only [List.getElem?_cons_zero, Option.some.injEq] at ha
        simp only [List.set_cons_zero, List.take_succ_cons, List.countP_cons, ha, hpa]
        simp
      | succ k =>
        simp only [List.getElem?_cons_succ] at ha
        simp only [List.set_cons_succ, List.take_succ_cons, List.countP_cons,
          ih k m (by omega) ha]
        omega

theorem fixed_count_le (B : Build) (S : State) (hI : Inv B S) :
    fixed_count S ≤ S.num_dynamic_stubs := by
  unfold fixed_count
  rw [← length_registered B S hI]
  exact List.countP_le_length _

theorem slot_inv_of_same (B : Build) (S S' : State) (hJ : SlotInv B S)
    (hreg : S'.registered = S.registered)
    (hnext : S'.next_dynamic_slot = S.next_dynamic_slot) : SlotInv B S' where
  count := by
    unfold fixed_count
    rw [hreg, hnext]
    exact hJ.count
  range := by rw [hreg]; exact hJ.range

theorem slot_inv_find_dynamic (B : Build) (S S' : State) (hI : Inv B S) (hJ : SlotInv B S)
    (name : List Char) (generate strdup_ok : Bool) (entry : Nat) (stub : Option Nat)
    (h : stub_find_dynamic B S name generate strdup_ok entry = .ok (stub, S')) :
    SlotInv B S' := by
  obtain ⟨_, hcase | ⟨_, _, hadd⟩⟩ := stub_find_dynamic_cases B S S' name _ _ _ _ h
  · rw [hcase.1]
    exact hJ
  · have hS' : S' = (stub_add_dynamic B S name strdup_ok entry).2 := by rw [hadd]
    cases hr : (stub_add_dynamic B S name strdup_ok entry).1 with
    | none =>
      obtain ⟨_, h2, h3, _⟩ := stub_add_dynamic_none B S name strdup_ok entry hr
      rw [hS']
      exact slot_inv_of_same B S _ hJ h3 h2
    | some i =>
      have hnot := (stub_add_dynamic_none_iff B S name strdup_ok entry).not.mp (by simp [hr])
      simp only [not_or] at hnot
      obtain ⟨hcap, hok, he⟩ := hnot
      have hok' : strdup_ok = true := by simpa using hok
      subst hok'
      rw [hS', stub_add_dynamic_some B S name entry (by omega) he]
      have hreg := registered_add B S hI
        { nameOffset := 0, slot := -1, addr := entry, nameBuffer := some name }
        (S.entry_calls ++ [EntryCall.generate (MAPI_LAST_SLOT B) entry]) (by omega)
      constructor
      · unfold fixed_count
        rw [hreg, List.countP_append]
        have := hJ.count
        unfold fixed_count at this
        simp only [List.countP_cons, List.countP_nil]
        show S.next_dynamic_slot ≤ _
        push_cast
        omega
      · rw [hreg]
        intro y hy
        rcases List.mem_append.mp hy with h | h
        · exact hJ.range y h
        · simp only [List.mem_singleton] at h
          rw [h]
          exact Or.inl rfl

theorem slot_inv_fix_dynamic (B : Build) (S : State) (hI : Inv B S) (hJ : SlotInv B S)
    (hstatic : ∀ p ∈ B.public_stubs, 0 ≤ p.slot)
    (stub : Nat) (alias_ : Option StubRef) (hreg : stub < S.num_dynamic_stubs)
    (halias : ∀ a, alias_ = some a → a.in_registry B S) :
    SlotInv B (stub_fix_dynamic B S stub alias_) := by
  rcases le_or_lt 0 (S.dynamic_stubs.getD stub default).slot with hfixed | hunfixed
  · rw [stub_fix_dynamic_fixed B S stub alias_ hfixed]
    exact hJ
  · have hnext := hI.next
    obtain ⟨hget, _⟩ := getD_registered B S hI stub hreg
    have hp : (fun s : mapi_stub => decide (0 ≤ s.slot)) (S.dynamic_stubs.getD stub default)
        = false := by
      simp only [decide_eq_false_iff_not]
      omega
    have hcount := hJ.count
    unfold fixed_count State.registered at hcount
    cases alias_ with
    | none =>
      rw [stub_fix_dynamic_null B S stub hunfixed]
      constructor
      · unfold fixed_count State.registered
        show S.next_dynamic_slot + 1 ≤ (B.MAPI_TABLE_NUM_STATIC : Int)
          + ((List.countP _ ((S.dynamic_stubs.set stub _).take S.num_dynamic_stubs) : Nat) : Int)
        rw [countP_take_set _ _ _ _ _ _ hreg hget hp]
        have h0 : (0 : Int) ≤ S.next_dynamic_slot := by omega
        simp only [h0, decide_True, if_true]
        push_cast
        omega
      · intro y hy
        rcases mem_registered_set S stub _ y _ _ hy with h | ⟨j, _, hj, hje⟩
        · rw [h]
          right
          show 0 ≤ S.next_dynamic_slot
          omega
        · exact hJ.range y ((mem_registered_iff S y).mpr ⟨j, hj, hje⟩)
    | some a =>
      rw [stub_fix_dynamic_alias B S stub a hunfixed]
      have ha : (deref B S a).slot = -1 ∨ 0 ≤ (deref B S a).slot := by
        have hin := halias a rfl
        cases a with
        | static k =>
          simp only [StubRef.in_registry] at hin
          have hmem : B.public_stubs.getD k default ∈ B.public_stubs := by
            rw [List.getD_eq_getElem?_getD, List.getElem?_eq_getElem hin]
            exact List.getElem_mem hin
          exact Or.inr (hstatic _ hmem)
        | dynamic k =>
          simp only [StubRef.in_registry] at hin
          exact hJ.range _ (getD_registered B S hI k hin).2
      constructor
      · unfold fixed_count State.registered
        show S.next_dynamic_slot ≤ (B.MAPI_TABLE_NUM_STATIC : Int)
          + ((List.countP _ ((S.dynamic_stubs.set stub _).take S.num_dynamic_stubs) : Nat) : Int)
        rw [countP_take_set _ _ _ _ _ _ hreg hget hp]
        push_cast
        split_ifs <;> omega
      · intro y hy
        rcases mem_registered_set S stub _ y _ _ hy with h | ⟨j, _, hj, hje⟩
        · rw [h]
          exact ha
        · exact hJ.range y ((mem_registered_iff S y).mpr ⟨j, hj, hje⟩)

theorem reg_reachable_slot_inv (B : Build) (S : State) (h : RegReachable B S)
    (hstatic : ∀ p ∈ B.public_stubs, 0 ≤ p.slot) : SlotInv B S := by
  induction h with
  | init =>
    constructor
    · simp [State.init, fixed_count, State.registered]
    · simp [State.init, State.registered]
  | @step S S' hreach hstep ih =>
    have hI := reachable_inv B S (reg_reachable_reachable B S hreach)
    cases hstep with
    | find_dynamic name generate strdup_ok entry stub h =>
      exact slot_inv_find_dynamic B S S' hI ih name generate strdup_ok entry stub h
    | fix_dynamic stub alias_ hstub halias =>
      exact slot_inv_fix_dynamic B S hI ih hstatic stub alias_ hstub halias
    | restore_funcs h =>
      obtain ⟨h1, h2, h3⟩ := stubRestoreFuncs_frame B S S' h
      exact slot_inv_of_same B S S' ih (by simp [State.registered, h1, h2]) h3
    | cleanup_dynamic =>
      constructor
      · simp [stub_cleanup_dynamic, fixed_count, State.registered]
      · simp [stub_cleanup_dynamic, State.registered]

/-- C19: with every static slot in `[0, MAPI_TABLE_NUM_STATIC)`, in every
state reached from the initial state by calls in which `stub_fix_dynamic` only
gets a registered dynamic stub and an alias that is `NULL` or a stub of the
registry, `next_dynamic_slot <= MAPI_LAST_SLOT`, and the slot of every
registered dynamic stub is `-1` or in `[0, MAPI_LAST_SLOT)`: the reserved
slot `MAPI_LAST_SLOT` is never given to a stub. -/
theorem last_slot_never_issued (B : Build) (S : State) (hS : RegReachable B S)
    (hstatic : ∀ p ∈ B.public_stubs, 0 ≤ p.slot ∧ p.slot < (B.MAPI_TABLE_NUM_STATIC : Int))
    (hdyn : 0 < B.MAPI_TABLE_NUM_DYNAMIC) :
    S.next_dynamic_slot ≤ MAPI_LAST_SLOT B ∧
      ∀ stub ∈ S.registered, stub.slot ≠ -1 →
        0 ≤ stub.slot ∧ stub.slot < MAPI_LAST_SLOT B := by
  have hI := reachable_inv B S (reg_reachable_reachable B S hS)
  have hR := reg_reachable_reg_inv B S hS (fun p hp => (hstatic p hp).2)
  have hJ := reg_reachable_slot_inv B S hS (fun p hp => (hstatic p hp).1)
  have hcount := hJ.count
  have hle := fixed_count_le B S hI
  have hnext : S.next_dynamic_slot ≤ MAPI_LAST_SLOT B := by
    unfold MAPI_LAST_SLOT
    rcases hI.num with h | h <;> omega
  refine ⟨hnext, ?_⟩
  intro stub hstub hne
  have hbelow := hR.below stub hstub
  rcases hJ.range stub hstub with h | h
  · exact absurd h hne
  · exact ⟨h, by omega⟩

theorem reg_reachable_scenario_fixed : RegReachable scenario scenario_fixed :=
  RegReachable.step reg_reachable_scenario_one
    (RegStep.fix_dynamic 0 none (by decide) (fun a h => by cases h))

/-- C19, on the scenario (`MAPI_LAST_SLOT = 6`) with `FooBarEXT` fixed: the
counter is 4 and the slot of the stub is 3. -/
theorem last_slot_never_issued_witness :
    MAPI_LAST_SLOT scenario = 6 ∧ scenario_fixed.next_dynamic_slot = 4 ∧
      scenario_fixed.next_dynamic_slot ≤ MAPI_LAST_SLOT scenario ∧
      (scenario_fixed.dynamic_stubs.getD 0 default).slot = 3 ∧
      (scenario_fixed.dynamic_stubs.getD 0 default).slot < MAPI_LAST_SLOT scenario :=
  ⟨by decide, by decide,
    (last_slot_never_issued scenario scenario_fixed reg_reachable_scenario_fixed (by decide)
      (by decide)).1, by decide,
    ((last_slot_never_issued scenario scenario_fixed reg_reachable_scenario_fixed (by decide)
      (by decide)).2 (scenario_fixed.dynamic_stubs.getD 0 default) (by decide) (by decide)).2⟩

/-! ## Theorems: reset of the dynamic table -/

theorem stub_add_dynamic_next (B : Build) (S : State) (name : List Char)
    (strdup_ok : Bool) (entry : Nat) :
    (stub_add_dynamic B S name strdup_ok entry).2.next_dynamic_slot = S.next_dynamic_slot := by
  simp only [stub_add_dynamic]
  split_ifs <;> rfl

theorem stub_find_by_slot_dynamic (B : Build) (S : State) (slot : Int) (i : Nat)
    (h : stub_find_by_slot B S slot = some (StubRef.dynamic i)) : i < S.num_dynamic_stubs := by
  unfold stub_find_by_slot at h
  cases hpub : search_table_by_slot B.public_stubs B.public_stubs.length slot with
  | some k => simp [hpub] at h
  | none =>
    cases hdyn : search_table_by_slot S.dynamic_stubs S.num_dynamic_stubs slot with
    | none => simp [hpub, hdyn] at h
    | some k =>
      simp only [hpub, hdyn, Option.map_some', Option.some.injEq, StubRef.dynamic.injEq] at h
      rw [← h]
      exact (search_table_by_slot_some _ _ _ _ hdyn).1

theorem no_reset_step_next (B : Build) (S S' : State) (h : NoResetStep B S S') :
    S.next_dynamic_slot ≤ S'.next_dynamic_slot := by
  cases h with
  | find_dynamic name generate strdup_ok entry stub h =>
    obtain ⟨_, hcase | ⟨_, _, hadd⟩⟩ := stub_find_dynamic_cases B S S' name _ _ _ _ h
    · rw [hcase.1]
    · have hS' : S' = (stub_add_dynamic B S name strdup_ok entry).2 := by rw [hadd]
      rw [hS']
      exact le_of_eq (stub_add_dynamic_next B S name strdup_ok entry).symm
  | fix_dynamic stub alias_ => exact (stub_fix_dynamic_frame B S stub alias_).2.2.1
  | restore_funcs h => exact le_of_eq (stubRestoreFuncs_frame B S S' h).2.2.symm

theorem no_reset_next (B : Build) (S S' : State) (h : NoReset B S S') :
    S.next_dynamic_slot ≤ S'.next_dynamic_slot := by
  induction h with
  | refl => exact le_refl _
  | step _ hstep ih => exact le_trans ih (no_reset_step_next B _ _ hstep)

/-- C20: after `stub_cleanup_dynamic`, `num_dynamic_stubs` is 0 and
`next_dynamic_slot` is `MAPI_TABLE_NUM_STATIC`, `stub_find_dynamic(name, 0)`
returns not-found for every name, and `stub_find_by_slot` returns no dynamic
stub.  Along any sequence of calls of `stub_find_dynamic`, `stub_fix_dynamic`
and `stubRestoreFuncs`, `next_dynamic_slot` never decreases; so once
`stub_fix_dynamic(stub, NULL)` has given an unfixed stub the fresh slot
`next_dynamic_slot`, the counter, which is the next fresh slot, stays above
that slot. -/
theorem stub_cleanup_dynamic_resets (B : Build) :
    (∀ S : State,
      (stub_cleanup_dynamic B S).num_dynamic_stubs = 0 ∧
        (stub_cleanup_dynamic B S).next_dynamic_slot = B.MAPI_TABLE_NUM_STATIC ∧
        (∀ (name : List Char) (strdup_ok : Bool) (entry : Nat),
          stub_find_dynamic B (stub_cleanup_dynamic B S) name false strdup_ok entry
            = .ok (none, stub_cleanup_dynamic B S)) ∧
        (∀ (slot : Int) (i : Nat),
          stub_find_by_slot B (stub_cleanup_dynamic B S) slot ≠ some (StubRef.dynamic i))) ∧
      (∀ S S' : State, NoReset B S S' → S.next_dynamic_slot ≤ S'.next_dynamic_slot) ∧
      (∀ (S S' : State) (stub : Nat), (S.dynamic_stubs.getD stub default).slot < 0 →
        NoReset B (stub_fix_dynamic B S stub none) S' →
        S.next_dynamic_slot < S'.next_dynamic_slot) := by
  refine ⟨?_, no_reset_next B, ?_⟩
  · intro S
    refine ⟨rfl, rfl, ?_, ?_⟩
    · intro name strdup_ok entry
      rw [stub_find_dynamic_lookup]
      rfl
    · intro slot i hi
      have := stub_find_by_slot_dynamic B (stub_cleanup_dynamic B S) slot i hi
      exact absurd this (Nat.not_lt_zero _)
  · intro S S' stub hunfixed h
    have := no_reset_next B _ _ h
    rw [stub_fix_dynamic_null B S stub hunfixed] at this
    have h' : S.next_dynamic_slot + 1 ≤ S'.next_dynamic_slot := this
    omega

/-- C20, on the scenario: after `FooBarEXT` got the fresh slot 3 the counter
is 4; `stub_cleanup_dynamic` then empties the table and puts the counter back
to `MAPI_TABLE_NUM_STATIC = 3`. -/
theorem stub_cleanup_dynamic_resets_witness :
    scenario_one.next_dynamic_slot < scenario_fixed.next_dynamic_slot ∧
      scenario_fixed.next_dynamic_slot = 4 ∧
      (stub_cleanup_dynamic scenario scenario_fixed).num_dynamic_stubs = 0 ∧
      (stub_cleanup_dynamic scenario scenario_fixed).next_dynamic_slot = 3 ∧
      stub_find_dynamic scenario (stub_cleanup_dynamic scenario scenario_fixed)
          "FooBarEXT".toList false false 0
        = .ok (none, stub_cleanup_dynamic scenario scenario_fixed) :=
  ⟨(stub_cleanup_dynamic_resets scenario).2.2 scenario_one scenario_fixed 0 (by decide)
      NoReset.refl,
    by decide, by decide, by decide,
    ((stub_cleanup_dynamic_resets scenario).1 scenario_fixed).2.2.1 "FooBarEXT".toList false 0⟩

end GLdispatch
